import Mathlib

/-!
Verification of the schedule/override/attendance engine of `schedule.py`.

Shallow embedding conventions:
* A calendar date is its Python `date.toordinal()` value, an `Int`; adding one
  day is `+ 1`, and `weekday d = (d + 6) % 7` (Monday = 0), which agrees with
  Python's `date.weekday()` for every ordinal.  The code stores dates as
  `YYYY-MM-DD` strings and compares them with string comparison, which on
  well-formed dates coincides with date order, hence with `Int` order here.
* A time of day is its minutes-since-midnight value, a `Nat`.  The code stores
  `HH:MM` strings and compares them lexicographically, which on well-formed
  zero-padded times coincides with minute order.
* Each SQL table is a `List` of row structures inside `DBState`; `AUTOINCREMENT`
  ids are modelled with explicit `next_session_id` / `next_override_id`
  counters.  `ON DELETE CASCADE` foreign keys are modelled by deleting the
  dependent rows together with their owner.
* Python dict payloads (`payload["days"]` keyed by weekday) are association
  lists; the source dicts have unique keys, and lookups are `List.find?`.
* Functions that can raise (`RuntimeError` for the running-session lock,
  `ValueError` for validation / missing rows) return `Except Err DBState`; the
  source wraps every mutating call in one transaction with rollback on any
  exception, so an error result leaves the store in the pre-call state.
-/

namespace SchoolSchedule

/-- Python `date.weekday()` on an ordinal: Monday = 0 .. Sunday = 6. -/
def weekday (d : Int) : Int := (d + 6) % 7

/-- days-from-civil (Gregorian), days since 1970-01-01; used only to write
concrete calendar dates in witnesses. -/
def days_from_civil (y m d : Int) : Int :=
  let y' := if m ≤ 2 then y - 1 else y
  let era := (if 0 ≤ y' then y' else y' - 399) / 400
  let yoe := y' - era * 400
  let mp := (m + 9) % 12
  let doy := (153 * mp + 2) / 5 + d - 1
  let doe := yoe * 365 + yoe / 4 - yoe / 100 + doy
  era * 146097 + doe - 719468

/-- Python `date(y, m, d).toordinal()`. -/
def ordinal (y m d : Int) : Int := days_from_civil y m d + 719163

/-- civil-from-days: the (year, month) of an ordinal date, as produced by the
source's string slicing of the ISO date. -/
def year_month (o : Int) : Int × Int :=
  let z := o - 719163 + 719468
  let era := (if 0 ≤ z then z else z - 146096) / 146097
  let doe := z - era * 146097
  let yoe := (doe - doe / 1460 + doe / 36524 - doe / 146096) / 365
  let y := yoe + era * 400
  let doy := doe - (365 * yoe + yoe / 4 - yoe / 100)
  let mp := (5 * doy + 2) / 153
  let m := mp + (if mp < 10 then 3 else -9)
  (y + (if m ≤ 2 then 1 else 0), m)

/-- A wall-clock instant (`datetime.now()`), truncated to minutes as the source
does via `strftime("%H:%M")`. -/
structure Now where
  day : Int
  minute : Nat
deriving DecidableEq, Repr

/-- `now + timedelta(minutes=30)`, normalising past midnight. -/
def cutoff30 (n : Now) : Now :=
  ⟨n.day + ((n.minute + 30) / 1440 : Nat), (n.minute + 30) % 1440⟩

/-- The future test used by all regeneration paths:
`date > D or (date = D and start_time > T)`. -/
def starts_after (cd : Int) (ct : Nat) (d : Int) (st : Nat) : Bool :=
  cd < d || (d == cd && ct < st)

-- Table rows ----------------------------------------------------------------

structure Session where
  id : Nat
  group_id : Nat
  date : Int
  start_time : Nat
  end_time : Nat
  is_temporary : Bool
  override_id : Option Nat
deriving DecidableEq, Repr

structure GroupSchedule where
  group_id : Nat
  start_date : Int
  end_date : Int
deriving DecidableEq, Repr

structure ScheduleDay where
  group_id : Nat
  wday : Int
  start_time : Nat
  end_time : Nat
deriving DecidableEq, Repr

structure ScheduleExclusion where
  group_id : Nat
  date : Int
deriving DecidableEq, Repr

structure Override where
  id : Nat
  group_id : Nat
  start_date : Int
  end_date : Int
deriving DecidableEq, Repr

structure OverrideDay where
  override_id : Nat
  wday : Int
  start_time : Nat
  end_time : Nat
deriving DecidableEq, Repr

structure OverrideExclusion where
  override_id : Nat
  date : Int
deriving DecidableEq, Repr

structure AttendanceRow where
  session_id : Nat
  student_id : Nat
deriving DecidableEq, Repr

/-- The attendance/schedule tables created by `init_attendance_tables`. -/
structure DBState where
  schedules : List GroupSchedule
  schedule_days : List ScheduleDay
  schedule_exclusions : List ScheduleExclusion
  sessions : List Session
  overrides : List Override
  override_days : List OverrideDay
  override_exclusions : List OverrideExclusion
  attendance : List AttendanceRow
  next_session_id : Nat
  next_override_id : Nat
deriving DecidableEq, Repr

-- Payload (the dict produced by `_collect_payload`) ---------------------------

structure DayRule where
  enabled : Bool
  start_time : Nat
  end_time : Nat
deriving DecidableEq, Repr

abbrev DaysMap := List (Int × DayRule)

structure Payload where
  start_date : Int
  end_date : Int
  days : DaysMap
  exclusions : List Int
deriving DecidableEq, Repr

/-- `weekday_time = {int(w): (start, end) for w, info in days_map.items() if enabled}`;
dict keys are unique in the source, so association-list lookup is faithful. -/
def weekday_time (days : DaysMap) (w : Int) : Option (Nat × Nat) :=
  (days.find? (fun p => p.1 == w && p.2.enabled)).map (fun p => (p.2.start_time, p.2.end_time))

/-- `selected_weekdays = set(weekday_time.keys())`. -/
def selected_weekdays (days : DaysMap) : List Int :=
  (days.filter (fun p => p.2.enabled)).map (fun p => p.1)

/-- The dates iterated by `while cur <= end_d: ... cur += timedelta(days=1)`. -/
def session_dates (sd ed : Int) : List Int :=
  (List.range (ed + 1 - sd).toNat).map (fun i : Nat => sd + (i : Int))

/-- `_count_sessions` (schedule.py lines 187-204). -/
def count_sessions (start_d end_d : Int) (selected : List Int) (exclusions : List Int) : Nat :=
  if end_d < start_d then 0
  else if selected.isEmpty then 0
  else (session_dates start_d end_d).countP
    (fun d => selected.contains (weekday d) && !(exclusions.contains d))

/-- One row of the `session_rows` lists: `(date, start_time, end_time)`
(the constant `group_id` component is added at insertion). -/
abbrev SessRow := Int × Nat × Nat

/-- The session-generation loop of `save_group_schedule_and_regenerate`
(schedule.py lines 611-623): no cutoff. -/
def base_session_rows (sd ed : Int) (days : DaysMap) (exclusions : List Int) : List SessRow :=
  if (selected_weekdays days).isEmpty then []
  else (session_dates sd ed).filterMap (fun d =>
    if (selected_weekdays days).contains (weekday d) && !(exclusions.contains d) then
      match weekday_time days (weekday d) with
      | some (st, et) => some (d, st, et)
      | none => none
    else none)

/-- The session-generation loop of `save_group_schedule_and_regenerate_edit`
(schedule.py lines 1508-1524).  Note that the loop filters with
`today = now_dt.date()` and `now_t = now_dt.strftime("%H:%M")` (lines 1512-1513),
i.e. with plain `now`, not with the 30-minute cutoff computed at the top of
the function. -/
def edit_session_rows (sd ed : Int) (days : DaysMap) (exclusions : List Int) (now : Now) : List SessRow :=
  if (selected_weekdays days).isEmpty then []
  else (session_dates sd ed).filterMap (fun d =>
    if (selected_weekdays days).contains (weekday d) && !(exclusions.contains d) then
      match weekday_time days (weekday d) with
      | some (st, et) =>
        if starts_after now.day now.minute d st then some (d, st, et) else none
      | none => none
    else none)

/-- The session-generation loop of `_regenerate_override_future`
(schedule.py lines 2062-2088): cutoff is `now + 30min`. -/
def override_session_rows (sd ed : Int) (days : DaysMap) (exclusions : List Int) (now : Now) : List SessRow :=
  let c := cutoff30 now
  if (selected_weekdays days).isEmpty then []
  else (session_dates sd ed).filterMap (fun d =>
    if (selected_weekdays days).contains (weekday d) && !(exclusions.contains d) then
      match weekday_time days (weekday d) with
      | some (st, et) =>
        if starts_after c.day c.minute d st then some (d, st, et) else none
      | none => none
    else none)

/-- `executemany("INSERT INTO sessions ...", rows)`: materialise rows as
`Session` records with consecutive fresh ids. -/
def mk_sessions (nid gid : Nat) (temp : Bool) (ovr : Option Nat) : List SessRow → List Session
  | [] => []
  | (d, st, et) :: rest => ⟨nid, gid, d, st, et, temp, ovr⟩ :: mk_sessions (nid + 1) gid temp ovr rest

-- Errors ----------------------------------------------------------------------

/-- Exceptions raised by the engine: the `RuntimeError` of the running-session
lock and the `ValueError`s of session validation / lookup. -/
inductive Err where
  | scheduleLocked
  | notFound
  | invalidTime
deriving DecidableEq, Repr

-- Engine operations -----------------------------------------------------------

/-- `_has_running_session` (schedule.py lines 1395-1410). -/
def has_running_session (s : DBState) (gid : Nat) (now : Now) : Bool :=
  s.sessions.any (fun t =>
    t.group_id == gid && t.date == now.day && t.start_time ≤ now.minute && now.minute < t.end_time)

/-- `_delete_future_sessions` (schedule.py lines 1413-1424): delete the group's
sessions starting strictly after `now + 30min`. -/
def delete_future_sessions (sess : List Session) (gid : Nat) (now : Now) : List Session :=
  let c := cutoff30 now
  sess.filter (fun t =>
    !(t.group_id == gid && starts_after c.day c.minute t.date t.start_time))

/-- `INSERT ... ON CONFLICT(group_id) DO UPDATE` on `group_schedules`. -/
def upsert_schedule (l : List GroupSchedule) (gid : Nat) (sd ed : Int) : List GroupSchedule :=
  if l.any (fun g => g.group_id == gid) then
    l.map (fun g => if g.group_id == gid then ⟨gid, sd, ed⟩ else g)
  else l ++ [⟨gid, sd, ed⟩]

/-- The weekday rows inserted for a payload (`day_rows` in the source; only
enabled weekdays are stored). -/
def payload_day_rows (gid : Nat) (days : DaysMap) : List ScheduleDay :=
  (days.filter (fun p => p.2.enabled)).map (fun p => ⟨gid, p.1, p.2.start_time, p.2.end_time⟩)

/-- `save_group_schedule_and_regenerate` (schedule.py lines 530-640): full
regenerate; note that it performs no running-session check. -/
def save_group_schedule_and_regenerate (gid : Nat) (payload : Option Payload) (s : DBState) : DBState :=
  match payload with
  | none =>
    { s with
      schedule_days := s.schedule_days.filter (fun r => !(r.group_id == gid))
      schedule_exclusions := s.schedule_exclusions.filter (fun r => !(r.group_id == gid))
      schedules := s.schedules.filter (fun r => !(r.group_id == gid))
      sessions := s.sessions.filter (fun t => !(t.group_id == gid)) }
  | some p =>
    let rows := base_session_rows p.start_date p.end_date p.days p.exclusions
    { s with
      schedules := upsert_schedule s.schedules gid p.start_date p.end_date
      schedule_days :=
        s.schedule_days.filter (fun r => !(r.group_id == gid)) ++ payload_day_rows gid p.days
      schedule_exclusions :=
        s.schedule_exclusions.filter (fun r => !(r.group_id == gid))
          ++ p.exclusions.map (fun d => ⟨gid, d⟩)
      sessions :=
        s.sessions.filter (fun t => !(t.group_id == gid))
          ++ mk_sessions s.next_session_id gid false none rows
      next_session_id := s.next_session_id + rows.length }

/-- `save_group_schedule_and_regenerate_edit` (schedule.py lines 1427-1540):
future-only regenerate, guarded by the running-session lock. -/
def save_group_schedule_and_regenerate_edit (gid : Nat) (payload : Option Payload) (now : Now)
    (s : DBState) : Except Err DBState :=
  if has_running_session s gid now then .error .scheduleLocked
  else match payload with
  | none =>
    .ok { s with
      schedule_days := s.schedule_days.filter (fun r => !(r.group_id == gid))
      schedule_exclusions := s.schedule_exclusions.filter (fun r => !(r.group_id == gid))
      schedules := s.schedules.filter (fun r => !(r.group_id == gid))
      sessions := delete_future_sessions s.sessions gid now }
  | some p =>
    let rows := edit_session_rows p.start_date p.end_date p.days p.exclusions now
    .ok { s with
      schedules := upsert_schedule s.schedules gid p.start_date p.end_date
      schedule_days :=
        s.schedule_days.filter (fun r => !(r.group_id == gid)) ++ payload_day_rows gid p.days
      schedule_exclusions :=
        s.schedule_exclusions.filter (fun r => !(r.group_id == gid))
          ++ p.exclusions.map (fun d => ⟨gid, d⟩)
      sessions :=
        delete_future_sessions s.sessions gid now
          ++ mk_sessions s.next_session_id gid false none rows
      next_session_id := s.next_session_id + rows.length }

-- Session CRUD (View Sessions window) ----------------------------------------

/-- `delete_session` (schedule.py lines 902-909); attendance rows cascade. -/
def delete_session (sid : Nat) (s : DBState) : DBState :=
  { s with
    sessions := s.sessions.filter (fun t => !(t.id == sid))
    attendance := s.attendance.filter (fun a => !(a.session_id == sid)) }

/-- `update_session` (schedule.py lines 878-899): validates `end > start`
(`_validate_session_inputs`), then raises `Session not found.` if the id
matches no row. -/
def update_session (sid : Nat) (d : Int) (st et : Nat) (s : DBState) : Except Err DBState :=
  if et ≤ st then .error .invalidTime
  else if s.sessions.any (fun t => t.id == sid) then
    .ok { s with
      sessions := s.sessions.map (fun t =>
        if t.id == sid then { t with date := d, start_time := st, end_time := et } else t) }
  else .error .notFound

-- Override machinery ----------------------------------------------------------

/-- `_get_override_rules` (schedule.py lines 1991-2007): the override's weekday
rules (all stored rows are enabled) and exclusion dates. -/
def get_override_rules (s : DBState) (oid : Nat) : DaysMap × List Int :=
  ((s.override_days.filter (fun r => r.override_id == oid)).map
      (fun r => (r.wday, ⟨true, r.start_time, r.end_time⟩)),
   (s.override_exclusions.filter (fun r => r.override_id == oid)).map (fun r => r.date))

/-- `_replace_override_exclusions` (schedule.py lines 2010-2017). -/
def replace_override_exclusions (s : DBState) (oid : Nat) (exclusions : List Int) : DBState :=
  { s with
    override_exclusions :=
      s.override_exclusions.filter (fun r => !(r.override_id == oid))
        ++ exclusions.map (fun d => ⟨oid, d⟩) }

/-- `_create_override` (schedule.py lines 2020-2046): insert the override row
(fresh autoincrement id), its enabled weekday rows and its exclusions. -/
def create_override (s : DBState) (gid : Nat) (sd ed : Int) (days : DaysMap)
    (exclusions : List Int) : DBState × Nat :=
  let oid := s.next_override_id
  let s1 := { s with
    overrides := s.overrides ++ [⟨oid, gid, sd, ed⟩]
    override_days :=
      s.override_days ++ (days.filter (fun p => p.2.enabled)).map
        (fun p => ⟨oid, p.1, p.2.start_time, p.2.end_time⟩)
    next_override_id := s.next_override_id + 1 }
  (replace_override_exclusions s1 oid exclusions, oid)

/-- `DELETE FROM group_schedule_overrides WHERE id = ?`; the weekday and
exclusion rows cascade (`ON DELETE CASCADE`, foreign keys on). -/
def delete_override (s : DBState) (oid : Nat) : DBState :=
  { s with
    overrides := s.overrides.filter (fun o => !(o.id == oid))
    override_days := s.override_days.filter (fun r => !(r.override_id == oid))
    override_exclusions := s.override_exclusions.filter (fun r => !(r.override_id == oid)) }

/-- `UPDATE group_schedule_overrides SET end_date = ? WHERE id = ?`. -/
def update_override_end (s : DBState) (oid : Nat) (ed : Int) : DBState :=
  { s with overrides := s.overrides.map (fun o =>
      if o.id == oid then { o with end_date := ed } else o) }

/-- `UPDATE group_schedule_overrides SET start_date = ? WHERE id = ?`. -/
def update_override_start (s : DBState) (oid : Nat) (sd : Int) : DBState :=
  { s with overrides := s.overrides.map (fun o =>
      if o.id == oid then { o with start_date := sd } else o) }

/-- `_delete_sessions_in_range_after_cutoff` (schedule.py lines 1966-1988). -/
def delete_sessions_in_range_after_cutoff (sess : List Session) (gid : Nat) (sd ed : Int)
    (now : Now) : List Session :=
  let c := cutoff30 now
  sess.filter (fun t =>
    !(t.group_id == gid && sd ≤ t.date && t.date ≤ ed
        && starts_after c.day c.minute t.date t.start_time))

/-- `_regenerate_override_future` (schedule.py lines 2049-2097): delete the
future sessions in the override's range, then insert the override's own
future rows tagged temporary. -/
def regenerate_override_future (s : DBState) (gid oid : Nat) (sd ed : Int) (days : DaysMap)
    (exclusions : List Int) (now : Now) : DBState :=
  let rows := override_session_rows sd ed days exclusions now
  { s with
    sessions :=
      delete_sessions_in_range_after_cutoff s.sessions gid sd ed now
        ++ mk_sessions s.next_session_id gid true (some oid) rows
    next_session_id := s.next_session_id + rows.length }

-- Ordering the overlap query (ORDER BY start_date ASC) ------------------------

def insert_by_start (o : Override) : List Override → List Override
  | [] => [o]
  | x :: xs => if o.start_date ≤ x.start_date then o :: x :: xs else x :: insert_by_start o xs

def sort_by_start : List Override → List Override
  | [] => []
  | x :: xs => insert_by_start x (sort_by_start xs)

/-- The `SELECT ... WHERE group_id = ? AND NOT (end_date < ? OR start_date > ?)
ORDER BY start_date ASC` query of `save_temporary_override_and_regenerate_edit`. -/
def overlap_query (s : DBState) (gid : Nat) (ns ne : Int) : List Override :=
  sort_by_start (s.overrides.filter (fun o =>
    o.group_id == gid && !(o.end_date < ns) && !(o.start_date > ne)))

/-- One iteration of the reconciliation loop of
`save_temporary_override_and_regenerate_edit` (schedule.py lines 2134-2209);
`ov` carries the id and dates fetched by the overlap query. -/
def reconcile_override (gid : Nat) (ns ne : Int) (now : Now) (s : DBState) (ov : Override) : DBState :=
  let os := ov.start_date
  let oe := ov.end_date
  let old := get_override_rules s ov.id
  if ns ≤ os && oe ≤ ne then
    delete_override s ov.id
  else if os < ns && ne < oe then
    let leftEnd := ns - 1
    let s1 := update_override_end s ov.id leftEnd
    let s2 := replace_override_exclusions s1 ov.id
      (old.2.filter (fun d => os ≤ d && d ≤ leftEnd))
    let rightStart := ne + 1
    let rightEnd := oe
    if rightStart ≤ rightEnd then
      let rightEx := old.2.filter (fun d => rightStart ≤ d && d ≤ rightEnd)
      let created := create_override s2 gid rightStart rightEnd old.1 rightEx
      regenerate_override_future created.1 gid created.2 rightStart rightEnd old.1 rightEx now
    else s2
  else if os < ns && ns ≤ oe && oe ≤ ne then
    let newEnd := ns - 1
    if newEnd < os then delete_override s ov.id
    else
      replace_override_exclusions (update_override_end s ov.id newEnd) ov.id
        (old.2.filter (fun d => os ≤ d && d ≤ newEnd))
  else if ns ≤ os && os ≤ ne && ne < oe then
    let newStart := ne + 1
    if oe < newStart then delete_override s ov.id
    else
      replace_override_exclusions (update_override_start s ov.id newStart) ov.id
        (old.2.filter (fun d => newStart ≤ d && d ≤ oe))
  else s

/-- `save_temporary_override_and_regenerate_edit` (schedule.py lines 2100-2220). -/
def save_temporary_override_and_regenerate_edit (gid : Nat) (p : Payload) (now : Now)
    (s : DBState) : Except Err DBState :=
  if has_running_session s gid now then .error .scheduleLocked
  else
    let ns := p.start_date
    let ne := p.end_date
    let s1 := (overlap_query s gid ns ne).foldl (reconcile_override gid ns ne now) s
    let created := create_override s1 gid ns ne p.days p.exclusions
    .ok (regenerate_override_future created.1 gid created.2 ns ne p.days p.exclusions now)

/-- `apply_overrides_future` (schedule.py lines 2223-2246): re-apply every
override of the group, in start-date order, future-only. -/
def apply_overrides_future (gid : Nat) (now : Now) (s : DBState) : DBState :=
  (sort_by_start (s.overrides.filter (fun o => o.group_id == gid))).foldl
    (fun st ov =>
      let rules := get_override_rules st ov.id
      regenerate_override_future st gid ov.id ov.start_date ov.end_date rules.1 rules.2 now)
    s

-- Attendance queries ----------------------------------------------------------

/-- `get_group_sessions` restricted to its row set (the `ORDER BY` affects
presentation only and every property below is order-insensitive). -/
def get_group_sessions (gid : Nat) (s : DBState) : List Session :=
  s.sessions.filter (fun t => t.group_id == gid)

/-- Session filter of `get_student_attendance_by_month`: on/after the join date
and already ended (`datetime(date, end_time) <= now`). -/
def ended_on_or_after_join (now : Now) (join : Int) (t : Session) : Bool :=
  join ≤ t.date && (t.date < now.day || (t.date == now.day && t.end_time ≤ now.minute))

/-- Key set of `get_attendance_counts_for_sessions` (schedule.py lines 771-791):
the given session ids that have at least one attendance row. -/
def taken_session_ids (s : DBState) (ids : List Nat) : List Nat :=
  ids.filter (fun sid => s.attendance.any (fun a => a.session_id == sid))

/-- `_get_present_session_ids_for_student` (schedule.py lines 1560-1575). -/
def present_session_ids (s : DBState) (student : Nat) (ids : List Nat) : List Nat :=
  ids.filter (fun sid =>
    s.attendance.any (fun a => a.session_id == sid && a.student_id == student))

structure HistEntry where
  session_id : Nat
  date : Int
  present : Bool
deriving DecidableEq, Repr

/-- `get_student_attendance_by_month` (schedule.py lines 1578-1649), flattened:
the dict value for a month key is recovered by `month_bucket` below. -/
def student_month_history (s : DBState) (gid student : Nat) (join : Int) (now : Now) :
    List HistEntry :=
  let ended := (get_group_sessions gid s).filter (ended_on_or_after_join now join)
  let taken := taken_session_ids s (ended.map (fun t => t.id))
  let present := present_session_ids s student taken
  (ended.filter (fun t => taken.contains t.id)).map
    (fun t => ⟨t.id, t.date, present.contains t.id⟩)

/-- The `(year, month)` bucket of the history dict. -/
def month_bucket (s : DBState) (gid student : Nat) (join : Int) (now : Now) (ym : Int × Int) :
    List HistEntry :=
  (student_month_history s gid student join now).filter (fun e => year_month e.date == ym)

-- ============================================================================
-- Claim-support definitions and witness fixtures
-- ============================================================================

/-- Projection of a session row on its non-id columns. -/
def sess_fields (t : Session) : Nat × Int × Nat × Nat × Bool × Option Nat :=
  (t.group_id, t.date, t.start_time, t.end_time, t.is_temporary, t.override_id)

def overrides_for (s : DBState) (gid : Nat) : List Override :=
  s.overrides.filter (fun o => o.group_id == gid)

def RDisj (a b : Override) : Prop :=
  ∀ d : Int, ¬(a.start_date ≤ d ∧ d ≤ a.end_date ∧ b.start_date ≤ d ∧ d ≤ b.end_date)

def NotIntN (ns ne : Int) (o : Override) : Prop :=
  ∀ d : Int, ¬(o.start_date ≤ d ∧ d ≤ o.end_date ∧ ns ≤ d ∧ d ≤ ne)

structure OvCall where
  gid : Nat
  payload : Payload
  now : Now
deriving Repr

def run_override_calls : List OvCall → DBState → Option DBState
  | [], s => some s
  | c :: rest, s =>
    match save_temporary_override_and_regenerate_edit c.gid c.payload c.now s with
    | .ok s' => run_override_calls rest s'
    | .error _ => none

/-- The weekday rules of the spec's example scenario: Monday and Wednesday,
17:00-18:30. -/
def exampleDays : DaysMap := [(0, ⟨true, 1020, 1110⟩), (2, ⟨true, 1020, 1110⟩)]

def c1_now : Now := ⟨ordinal 2024 9 10, 600⟩

def c1_pay : Payload := ⟨ordinal 2024 9 10, ordinal 2024 9 10, [(1, ⟨true, 610, 700⟩)], []⟩

def c1_state : DBState := ⟨[], [], [], [], [], [], [], [], 1, 1⟩

def c1_sess : Session := ⟨1, 1, ordinal 2024 9 10, 610, 700, false, none⟩

def c1_final : DBState :=
  match save_group_schedule_and_regenerate_edit 1 (some c1_pay) c1_now c1_state with
  | .ok s' => s'
  | .error _ => c1_state

def c2_state : DBState :=
  ⟨[⟨1, 90, 110⟩], [], [], [⟨1, 1, 100, 590, 660, false, none⟩], [], [], [], [], 2, 1⟩

def c2_now : Now := ⟨100, 600⟩

def c2_pay : Payload := ⟨95, 105, [(1, ⟨true, 610, 700⟩)], []⟩

def c4_init : DBState := ⟨[], [], [], [], [], [], [], [], 1, 1⟩

def c4_ops : List OvCall :=
  [⟨1, ⟨10, 20, [(0, ⟨true, 600, 660⟩)], []⟩, ⟨0, 0⟩⟩,
   ⟨1, ⟨15, 30, [(2, ⟨true, 700, 760⟩)], []⟩, ⟨0, 0⟩⟩]

def c4_final : DBState := (run_override_calls c4_ops c4_init).getD c4_init

def c6_state : DBState :=
  ⟨[⟨1, 95, 110⟩], [⟨1, 4, 600, 660⟩], [],
   [⟨1, 1, 100, 600, 660, false, none⟩], [], [], [], [], 2, 1⟩

def c6_now : Now := ⟨200, 600⟩

def c6_pay : Payload := ⟨195, 205, [(4, ⟨true, 700, 760⟩)], []⟩

def c6_final : DBState :=
  match save_group_schedule_and_regenerate_edit 1 (some c6_pay) c6_now c6_state with
  | .ok s' => s'
  | .error _ => c6_state

def c10_state : DBState :=
  ⟨[], [], [], [⟨1, 1, 100, 600, 660, false, none⟩], [], [], [], [⟨1, 7⟩], 2, 1⟩

def c7_O : Override := ⟨1, 1, ordinal 2024 9 5, ordinal 2024 9 20⟩

def c7_state : DBState :=
  ⟨[], [], [], [], [c7_O], [⟨1, 1, 600, 660⟩],
   [⟨1, ordinal 2024 9 8⟩, ⟨1, ordinal 2024 9 17⟩], [], 1, 2⟩

def c7_pay : Payload := ⟨ordinal 2024 9 10, ordinal 2024 9 15, [(1, ⟨true, 600, 660⟩)], []⟩

def c7_now : Now := ⟨ordinal 2024 9 1, 600⟩

def c8_t1 : Session := ⟨1, 1, ordinal 2024 9 2, 1020, 1110, false, none⟩

def c8_state : DBState :=
  ⟨[], [], [],
   [c8_t1, ⟨2, 1, ordinal 2024 9 9, 1020, 1110, false, none⟩],
   [], [], [], [⟨1, 99⟩], 3, 1⟩

def c8_now : Now := ⟨ordinal 2024 9 30, 600⟩

def in_range_future (gid : Nat) (sd ed : Int) (now : Now) (t : Session) : Bool :=
  t.group_id == gid && sd ≤ t.date && t.date ≤ ed
    && starts_after (cutoff30 now).day (cutoff30 now).minute t.date t.start_time

def c5_now : Now := ⟨100, 600⟩

def c5_old : Session := ⟨1, 1, 96, 600, 660, false, none⟩

def c5_state : DBState := ⟨[], [], [], [c5_old], [], [], [], [], 2, 1⟩

def c5_pOv : Payload := ⟨95, 105, [(4, ⟨true, 700, 760⟩)], []⟩

def c5_pBase : Payload := ⟨95, 105, [(4, ⟨true, 600, 660⟩)], []⟩

def c5_s1 : DBState :=
  match save_temporary_override_and_regenerate_edit 1 c5_pOv c5_now c5_state with
  | .ok s => s
  | .error _ => c5_state

def c5_s2 : DBState :=
  match save_group_schedule_and_regenerate_edit 1 (some c5_pBase) c5_now c5_s1 with
  | .ok s => s
  | .error _ => c5_s1

def c5_final : DBState := apply_overrides_future 1 c5_now c5_s2

-- ============================================================================
-- Helper lemmas
-- ============================================================================

theorem selected_weekdays_isSome (days : DaysMap) (w : Int)
    (h : (selected_weekdays days).contains w = true) :
    ∃ st et, weekday_time days w = some (st, et) := by
  induction days with
  | nil => simp [selected_weekdays] at h
  | cons p rest ih =>
    by_cases he : p.2.enabled
    · by_cases hw : p.1 = w
      · refine ⟨p.2.start_time, p.2.end_time, ?_⟩
        simp [weekday_time, List.find?, hw, he]
      · have hbw : (p.1 == w) = false := by simp [hw]
        have h' : (selected_weekdays rest).contains w = true := by
          simp [selected_weekdays, he, List.contains_iff_exists_mem_beq] at h ⊢
          rcases h with h | h
          · exact absurd h.symm hw
          · exact h
        obtain ⟨st, et, hst⟩ := ih h'
        refine ⟨st, et, ?_⟩
        simp only [weekday_time, List.find?, hbw, Bool.false_and] at hst ⊢
        exact hst
    · have h' : (selected_weekdays rest).contains w = true := by
        simpa [selected_weekdays, List.filter_cons, he] using h
      obtain ⟨st, et, hst⟩ := ih h'
      refine ⟨st, et, ?_⟩
      simp only [weekday_time, List.find?, he, Bool.and_false] at hst ⊢
      exact hst

theorem filterMap_rows_length (days : DaysMap) (ex : List Int) (l : List Int) :
    (l.filterMap (fun d =>
      if (selected_weekdays days).contains (weekday d) && !(ex.contains d) then
        match weekday_time days (weekday d) with
        | some (st, et) => some (d, st, et)
        | none => none
      else none)).length
    = l.countP (fun d => (selected_weekdays days).contains (weekday d) && !(ex.contains d)) := by
  induction l with
  | nil => simp
  | cons d rest ih =>
    rw [List.filterMap_cons, List.countP_cons]
    by_cases hc : ((selected_weekdays days).contains (weekday d) && !(ex.contains d)) = true
    · have hsel : (selected_weekdays days).contains (weekday d) = true := by
        exact (Bool.and_eq_true_iff.mp hc).1
      obtain ⟨st, et, hst⟩ := selected_weekdays_isSome days (weekday d) hsel
      rw [if_pos hc, hst]
      simp only [List.length_cons, ih, hc, if_true]
    · rw [if_neg hc]
      have hc' : ((selected_weekdays days).contains (weekday d) && !(ex.contains d)) = false :=
        Bool.not_eq_true _ ▸ (by simpa using hc)
      rw [hc']
      simpa using ih

theorem mem_delete_future_sessions (sess : List Session) (gid : Nat) (now : Now)
    (t : Session) (ht : t ∈ sess)
    (hpast : starts_after (cutoff30 now).day (cutoff30 now).minute t.date t.start_time = false) :
    t ∈ delete_future_sessions sess gid now := by
  unfold delete_future_sessions
  exact List.mem_filter.mpr ⟨ht, by simp [hpast]⟩

theorem filter_group_of_filter_not_group (l : List Session) (gid : Nat) :
    ((l.filter (fun t => !(t.group_id == gid))).filter (fun t => t.group_id == gid)) = [] := by
  induction l with
  | nil => rfl
  | cons t rest ih =>
    by_cases h : t.group_id == gid
    · simp [List.filter_cons, h, ih]
    · simp [List.filter_cons, h, ih]

theorem mk_sessions_filter_self (nid gid : Nat) (temp : Bool) (ovr : Option Nat)
    (rows : List SessRow) :
    (mk_sessions nid gid temp ovr rows).filter (fun t => t.group_id == gid)
      = mk_sessions nid gid temp ovr rows := by
  induction rows generalizing nid with
  | nil => rfl
  | cons r rest ih =>
    obtain ⟨d, st, et⟩ := r
    simp [mk_sessions, List.filter_cons, ih]

theorem mk_sessions_map_fields (nid gid : Nat) (temp : Bool) (ovr : Option Nat)
    (rows : List SessRow) :
    (mk_sessions nid gid temp ovr rows).map sess_fields
      = rows.map (fun r => (gid, r.1, r.2.1, r.2.2, temp, ovr)) := by
  induction rows generalizing nid with
  | nil => rfl
  | cons r rest ih =>
    obtain ⟨d, st, et⟩ := r
    simp [mk_sessions, sess_fields, ih]

theorem filter_and_overrides (l : List Override) (p q : Override → Bool) :
    l.filter (fun o => p o && q o) = (l.filter p).filter q := by
  induction l with
  | nil => rfl
  | cons o rest ih =>
    by_cases hp : p o <;> by_cases hq : q o <;>
      simp [List.filter_cons, hp, hq, ih]

theorem reconcile_override_split_eq (gid : Nat) (ns ne : Int) (now : Now) (st : DBState)
    (ov : Override) (hos : ov.start_date < ns) (hoe : ne < ov.end_date) :
    reconcile_override gid ns ne now st ov =
      regenerate_override_future
        (create_override
          (replace_override_exclusions (update_override_end st ov.id (ns - 1)) ov.id
            ((get_override_rules st ov.id).2.filter
              (fun d => ov.start_date ≤ d && d ≤ ns - 1)))
          gid (ne + 1) ov.end_date (get_override_rules st ov.id).1
          ((get_override_rules st ov.id).2.filter
            (fun d => ne + 1 ≤ d && d ≤ ov.end_date))).1
        gid
        (create_override
          (replace_override_exclusions (update_override_end st ov.id (ns - 1)) ov.id
            ((get_override_rules st ov.id).2.filter
              (fun d => ov.start_date ≤ d && d ≤ ns - 1)))
          gid (ne + 1) ov.end_date (get_override_rules st ov.id).1
          ((get_override_rules st ov.id).2.filter
            (fun d => ne + 1 ≤ d && d ≤ ov.end_date))).2
        (ne + 1) ov.end_date (get_override_rules st ov.id).1
        ((get_override_rules st ov.id).2.filter
          (fun d => ne + 1 ≤ d && d ≤ ov.end_date)) now := by
  have f1 : ¬ ns ≤ ov.start_date := by omega
  have hrr : ne + 1 ≤ ov.end_date := by omega
  unfold reconcile_override
  rw [if_neg (by simp [f1]), if_pos (by simp [hos, hoe]), if_pos (by simp [hrr])]

theorem filter_key_eq_nil {α : Type} (f : α → Nat) (l : List α) (k : Nat)
    (h : ∀ r ∈ l, f r ≠ k) : l.filter (fun r => f r == k) = [] := by
  induction l with
  | nil => rfl
  | cons a rest ih =>
    rw [List.filter_cons, if_neg (by simp [h a (List.mem_cons_self _ _)])]
    exact ih (fun r hr => h r (List.mem_cons_of_mem _ hr))

theorem filter_key_keep {α : Type} (f : α → Nat) (l : List α) (k : Nat)
    (h : ∀ r ∈ l, f r ≠ k) : l.filter (fun r => !(f r == k)) = l :=
  List.filter_eq_self.mpr (fun a ha => by simp [h a ha])

theorem filter_key_of_filter_not {α : Type} (f : α → Nat) (l : List α) (k : Nat) :
    (l.filter (fun r => !(f r == k))).filter (fun r => f r == k) = [] := by
  induction l with
  | nil => rfl
  | cons a rest ih =>
    by_cases h : f a == k
    · simp [List.filter_cons, h, ih]
    · simp [List.filter_cons, h, ih]

theorem filter_days_eq_nil (l : List OverrideDay) (k : Nat)
    (h : ∀ r ∈ l, r.override_id ≠ k) : l.filter (fun r => r.override_id == k) = [] :=
  filter_key_eq_nil (fun r => r.override_id) l k h

theorem filter_days_all (l : List OverrideDay) (k : Nat)
    (h : ∀ r ∈ l, r.override_id = k) : l.filter (fun r => r.override_id == k) = l :=
  List.filter_eq_self.mpr (fun a ha => by simp [h a ha])

theorem filter_ex_eq_nil (l : List OverrideExclusion) (k : Nat)
    (h : ∀ r ∈ l, r.override_id ≠ k) : l.filter (fun r => r.override_id == k) = [] :=
  filter_key_eq_nil (fun r => r.override_id) l k h

theorem filter_ex_keep (l : List OverrideExclusion) (k : Nat)
    (h : ∀ r ∈ l, r.override_id ≠ k) : l.filter (fun r => !(r.override_id == k)) = l :=
  filter_key_keep (fun r => r.override_id) l k h

theorem filter_ex_all (l : List OverrideExclusion) (k : Nat)
    (h : ∀ r ∈ l, r.override_id = k) : l.filter (fun r => r.override_id == k) = l :=
  List.filter_eq_self.mpr (fun a ha => by simp [h a ha])

theorem filter_ex_of_filter_not (l : List OverrideExclusion) (k : Nat) :
    (l.filter (fun r => !(r.override_id == k))).filter (fun r => r.override_id == k) = [] :=
  filter_key_of_filter_not (fun r => r.override_id) l k

theorem days_roundtrip (l : List OverrideDay) (k : Nat) :
    ((((l.map (fun r => (r.wday, (⟨true, r.start_time, r.end_time⟩ : DayRule)))).filter
        (fun q => q.2.enabled)).map
        (fun q => (⟨k, q.1, q.2.start_time, q.2.end_time⟩ : OverrideDay))).map
        (fun r => (r.wday, r.start_time, r.end_time)))
      = l.map (fun r => (r.wday, r.start_time, r.end_time)) := by
  induction l with
  | nil => rfl
  | cons a rest ih => simp [List.filter_cons, ih]

theorem contains_filter_nat (l : List Nat) (q : Nat → Bool) (x : Nat) :
    ((l.filter q).contains x) = (l.contains x && q x) := by
  induction l with
  | nil => simp
  | cons a rest ih =>
    by_cases hq : q a = true
    · by_cases hx : a = x
      · subst hx
        simp [List.filter_cons, hq, ih]
      · have hx' : ¬ x = a := fun h => hx h.symm
        simp [List.filter_cons, hq, ih, hx', List.contains_cons]
    · by_cases hx : a = x
      · subst hx
        simp [List.filter_cons, hq, ih, List.contains_cons]
      · have hx' : ¬ x = a := fun h => hx h.symm
        simp [List.filter_cons, hq, ih, hx', List.contains_cons]

-- ============================================================================
-- Claims
-- ============================================================================

theorem RDisj_symm : Symmetric RDisj := by
  intro a b h d hd
  exact h d ⟨hd.2.2.1, hd.2.2.2, hd.1, hd.2.1⟩

theorem insert_by_start_perm (o : Override) (l : List Override) :
    (insert_by_start o l).Perm (o :: l) := by
  induction l with
  | nil => exact List.Perm.refl _
  | cons x xs ih =>
    unfold insert_by_start
    by_cases h : o.start_date ≤ x.start_date
    · simp [h]
    · simp only [h, if_false]
      exact ((ih.cons x).trans (List.Perm.swap o x xs))

theorem sort_by_start_perm (l : List Override) : (sort_by_start l).Perm l := by
  induction l with
  | nil => exact List.Perm.refl _
  | cons x xs ih =>
    exact (insert_by_start_perm x (sort_by_start xs)).trans (ih.cons x)

theorem reconcile_override_cases (gid : Nat) (ns ne : Int) (now : Now) (st : DBState)
    (ov : Override) (hq1 : ns ≤ ov.end_date) (hq2 : ov.start_date ≤ ne) :
    ((reconcile_override gid ns ne now st ov).overrides
        = st.overrides.filter (fun o => !(o.id == ov.id))
      ∧ (reconcile_override gid ns ne now st ov).next_override_id = st.next_override_id)
    ∨ ((reconcile_override gid ns ne now st ov).overrides
        = st.overrides.map (fun o => if o.id == ov.id then { o with end_date := ns - 1 } else o)
          ++ [⟨st.next_override_id, gid, ne + 1, ov.end_date⟩]
      ∧ (reconcile_override gid ns ne now st ov).next_override_id = st.next_override_id + 1
      ∧ ov.start_date < ns ∧ ne < ov.end_date)
    ∨ ((reconcile_override gid ns ne now st ov).overrides
        = st.overrides.map (fun o => if o.id == ov.id then { o with end_date := ns - 1 } else o)
      ∧ (reconcile_override gid ns ne now st ov).next_override_id = st.next_override_id
      ∧ ov.start_date < ns)
    ∨ ((reconcile_override gid ns ne now st ov).overrides
        = st.overrides.map (fun o => if o.id == ov.id then { o with start_date := ne + 1 } else o)
      ∧ (reconcile_override gid ns ne now st ov).next_override_id = st.next_override_id
      ∧ ne < ov.end_date) := by
  by_cases h1 : ns ≤ ov.start_date ∧ ov.end_date ≤ ne
  · left
    unfold reconcile_override
    rw [if_pos (by simp [h1.1, h1.2])]
    exact ⟨rfl, rfl⟩
  · by_cases h2 : ov.start_date < ns ∧ ne < ov.end_date
    · right; left
      obtain ⟨h2a, h2b⟩ := h2
      have f1 : ¬ ns ≤ ov.start_date := by omega
      have hrr : ne + 1 ≤ ov.end_date := by omega
      unfold reconcile_override
      rw [if_neg (by simp [f1]), if_pos (by simp [h2a, h2b]), if_pos (by simp [hrr])]
      exact ⟨rfl, rfl, h2a, h2b⟩
    · by_cases h3 : ov.start_date < ns
      · right; right; left
        have hoe : ov.end_date ≤ ne := by
          rcases (not_and_or.mp h2) with h | h
          · omega
          · omega
        have f1 : ¬ ns ≤ ov.start_date := by omega
        have hnd : ¬ (ns - 1 < ov.start_date) := by omega
        unfold reconcile_override
        rw [if_neg (by simp [f1]), if_neg (by simp [hoe]),
          if_pos (by simp [h3, hq1, hoe]), if_neg (by simp [hnd])]
        exact ⟨rfl, rfl, h3⟩
      · right; right; right
        have hos : ns ≤ ov.start_date := by omega
        have hoe : ne < ov.end_date := by
          rcases (not_and_or.mp h1) with h | h
          · omega
          · omega
        have hnd : ¬ (ov.end_date < ne + 1) := by omega
        unfold reconcile_override
        rw [if_neg (by simp [hoe]), if_neg (by simp [h3]),
          if_neg (by simp [h3]), if_pos (by simp [hos, hq2, hoe]), if_neg (by simp [hnd])]
        exact ⟨rfl, rfl, hoe⟩

theorem RDisj_mono_left (a a' b : Override) (hs : a.start_date ≤ a'.start_date)
    (he : a'.end_date ≤ a.end_date) (h : RDisj a b) : RDisj a' b := by
  intro d hd
  exact h d ⟨by omega, by omega, hd.2.2⟩

theorem NotIntN_of_end_lt (ns ne : Int) (o : Override) (h : o.end_date < ns) :
    NotIntN ns ne o := by
  intro d hd
  omega

theorem NotIntN_of_start_gt (ns ne : Int) (o : Override) (h : ne < o.start_date) :
    NotIntN ns ne o := by
  intro d hd
  omega

theorem pairwise_filter_map_patch (l : List Override) (F : Override → Override) (g : Nat)
    (hFgr : ∀ o, (F o).group_id = o.group_id)
    (hshrink : ∀ o ∈ l, o.start_date ≤ (F o).start_date ∧ (F o).end_date ≤ o.end_date)
    (hp : (l.filter (fun o => o.group_id == g)).Pairwise RDisj) :
    ((l.map F).filter (fun o => o.group_id == g)).Pairwise RDisj := by
  rw [List.filter_map]
  have hcong : l.filter ((fun o => o.group_id == g) ∘ F) = l.filter (fun o => o.group_id == g) :=
    List.filter_congr (fun o _ => by simp [hFgr o])
  rw [hcong, List.pairwise_map]
  refine hp.imp_of_mem ?_
  intro a b ha hb hab
  have hsa := hshrink a (List.mem_of_mem_filter ha)
  have hsb := hshrink b (List.mem_of_mem_filter hb)
  intro d hd
  exact hab d ⟨by omega, by omega, by omega, by omega⟩

theorem reconcile_step_inv (gid : Nat) (ns ne : Int) (now : Now) (st : DBState) (ov : Override)
    (rest : List Override)
    (hval : ns ≤ ne)
    (hnodup : (st.overrides.map (fun o => o.id)).Nodup)
    (hbound : ∀ o ∈ st.overrides, o.id < st.next_override_id)
    (hov_mem : ov ∈ st.overrides) (hov_g : ov.group_id = gid)
    (hq1 : ns ≤ ov.end_date) (hq2 : ov.start_date ≤ ne)
    (hrest_mem : ∀ o ∈ rest, o ∈ st.overrides)
    (hrest_id : ∀ o ∈ rest, o.id ≠ ov.id)
    (hdisj : ∀ g, (overrides_for st g).Pairwise RDisj)
    (hflag : ∀ o ∈ st.overrides, o.group_id = gid → NotIntN ns ne o ∨ o = ov ∨ o ∈ rest) :
    ((reconcile_override gid ns ne now st ov).overrides.map (fun o => o.id)).Nodup
    ∧ (∀ o ∈ (reconcile_override gid ns ne now st ov).overrides,
        o.id < (reconcile_override gid ns ne now st ov).next_override_id)
    ∧ st.next_override_id ≤ (reconcile_override gid ns ne now st ov).next_override_id
    ∧ (∀ o ∈ rest, o ∈ (reconcile_override gid ns ne now st ov).overrides)
    ∧ (∀ g, (overrides_for (reconcile_override gid ns ne now st ov) g).Pairwise RDisj)
    ∧ (∀ o ∈ (reconcile_override gid ns ne now st ov).overrides,
        o.group_id = gid → NotIntN ns ne o ∨ o ∈ rest) := by
  have hid_eq : ∀ o ∈ st.overrides, o.id = ov.id → o = ov :=
    fun o ho hid => List.inj_on_of_nodup_map hnodup ho hov_mem hid
  rcases reconcile_override_cases gid ns ne now st ov hq1 hq2 with
    ⟨ho, hn⟩ | ⟨ho, hn, hos, hoe⟩ | ⟨ho, hn, hos⟩ | ⟨ho, hn, hoe⟩
  · -- fully covered: delete
    refine ⟨?_, ?_, ?_, ?_, ?_, ?_⟩
    · rw [ho]
      exact (((List.filter_sublist _).map _).nodup hnodup)
    · intro o hmem
      rw [hn]
      rw [ho] at hmem
      exact hbound o (List.mem_of_mem_filter hmem)
    · rw [hn]
    · intro o hor
      rw [ho]
      exact List.mem_filter.mpr ⟨hrest_mem o hor, by simp [hrest_id o hor]⟩
    · intro g
      show ((reconcile_override gid ns ne now st ov).overrides.filter
        (fun o => o.group_id == g)).Pairwise RDisj
      rw [ho]
      exact (hdisj g).sublist ((List.filter_sublist st.overrides).filter _)
    · intro o hmem hg
      rw [ho] at hmem
      have h1 := List.mem_of_mem_filter hmem
      have h2 : o.id ≠ ov.id := by
        have := (List.mem_filter.mp hmem).2
        simpa using this
      rcases hflag o h1 hg with h | h | h
      · exact Or.inl h
      · exact absurd (h ▸ rfl) h2
      · exact Or.inr h
  · -- split: left shrink in place ++ fresh right remainder
    set F : Override → Override :=
      (fun o => if o.id == ov.id then { o with end_date := ns - 1 } else o) with hF
    set w : Override := { ov with end_date := ns - 1 } with hw
    set rt : Override := ⟨st.next_override_id, gid, ne + 1, ov.end_date⟩ with hrt
    have hFid : ∀ o : Override, (F o).id = o.id := by
      intro o
      by_cases h : o.id = ov.id <;> simp [hF, h]
    have hFgr : ∀ o : Override, (F o).group_id = o.group_id := by
      intro o
      by_cases h : o.id = ov.id <;> simp [hF, h]
    have hFmem : ∀ o ∈ st.overrides, (o.id ≠ ov.id ∧ F o = o) ∨ (o = ov ∧ F o = w) := by
      intro o homem
      by_cases h : o.id = ov.id
      · have heo := hid_eq o homem h
        subst heo
        exact Or.inr ⟨rfl, by simp [hF, hw]⟩
      · exact Or.inl ⟨h, by simp [hF, h]⟩
    have hshrink : ∀ o ∈ st.overrides,
        o.start_date ≤ (F o).start_date ∧ (F o).end_date ≤ o.end_date := by
      intro o homem
      rcases hFmem o homem with ⟨_, heq⟩ | ⟨heo, heq⟩
      · rw [heq]
        exact ⟨le_refl _, le_refl _⟩
      · rw [heq, heo, hw]
        exact ⟨le_refl _, by simp; omega⟩
    have hids : ((st.overrides.map F).map (fun o => o.id)) = st.overrides.map (fun o => o.id) := by
      rw [List.map_map]
      exact List.map_congr_left (fun o _ => hFid o)
    refine ⟨?_, ?_, ?_, ?_, ?_, ?_⟩
    · rw [ho, List.map_append, hids]
      refine hnodup.append (List.nodup_singleton _) ?_
      intro a ha hb
      simp only [hrt, List.map_cons, List.map_nil, List.mem_singleton] at hb
      obtain ⟨x, hx, rfl⟩ := List.mem_map.mp ha
      have := hbound x hx
      omega
    · intro o hmem
      rw [hn]
      rw [ho] at hmem
      rcases List.mem_append.mp hmem with h | h
      · obtain ⟨x, hx, rfl⟩ := List.mem_map.mp h
        rw [hFid x]
        have := hbound x hx
        omega
      · simp only [List.mem_singleton] at h
        have hid : o.id = st.next_override_id := by
          subst h
          rfl
        omega
    · rw [hn]
      omega
    · intro o hor
      rw [ho]
      refine List.mem_append_left _ ?_
      have heq : F o = o := by simp [hF, hrest_id o hor]
      exact heq ▸ List.mem_map_of_mem F (hrest_mem o hor)
    · intro g
      show ((reconcile_override gid ns ne now st ov).overrides.filter
        (fun o => o.group_id == g)).Pairwise RDisj
      rw [ho, List.filter_append]
      rw [List.pairwise_append]
      refine ⟨pairwise_filter_map_patch st.overrides F g hFgr hshrink (hdisj g), ?_, ?_⟩
      · by_cases hgr : rt.group_id == g <;> simp [List.filter, hgr, List.pairwise_singleton]
      · intro a ha b hb
        have hbr : b = rt ∧ (rt.group_id == g) = true := by
          by_cases hgr : rt.group_id == g
          · constructor
            · simpa [List.filter, hgr] using hb
            · exact hgr
          · simp [List.filter, hgr] at hb
        obtain ⟨rfl, hgr⟩ := hbr
        have hgg : g = gid := by
          have h2 := eq_of_beq hgr
          simp [hrt] at h2
          omega
        have ha' := List.mem_filter.mp ha
        obtain ⟨x, hx, rfl⟩ := List.mem_map.mp ha'.1
        rcases hFmem x hx with ⟨hne', heq⟩ | ⟨rfl, heq⟩
        · rw [heq] at ha' ⊢
          have hxg : x.group_id = gid := by
            have h2 := eq_of_beq ha'.2
            omega
          have hx_in : x ∈ overrides_for st gid :=
            List.mem_filter.mpr ⟨hx, by simp [hxg]⟩
          have hov_in : ov ∈ overrides_for st gid :=
            List.mem_filter.mpr ⟨hov_mem, by simp [hov_g]⟩
          have hxov : x ≠ ov := fun h => hne' (h ▸ rfl)
          have hdx : RDisj x ov :=
            List.Pairwise.forall RDisj_symm (hdisj gid) hx_in hov_in hxov
          intro d hd
          rw [hrt] at hd
          simp at hd
          exact hdx d ⟨hd.1, hd.2.1, by omega, by omega⟩
        · rw [heq]
          intro d hd
          rw [hw, hrt] at hd
          simp at hd
          omega
    · intro o hmem hg
      rw [ho] at hmem
      rcases List.mem_append.mp hmem with h | h
      · obtain ⟨x, hx, rfl⟩ := List.mem_map.mp h
        rcases hFmem x hx with ⟨hne', heq⟩ | ⟨rfl, heq⟩
        · rw [heq] at hg ⊢
          rcases hflag x hx hg with hh | hh | hh
          · exact Or.inl hh
          · exact absurd (hh ▸ rfl) hne'
          · exact Or.inr hh
        · rw [heq]
          refine Or.inl (NotIntN_of_end_lt ns ne w ?_)
          rw [hw]
          simp
      · simp only [List.mem_singleton] at h
        subst h
        refine Or.inl (NotIntN_of_start_gt ns ne _ ?_)
        rw [hrt]
        simp
  · -- tail overlap: shrink end in place
    set F : Override → Override :=
      (fun o => if o.id == ov.id then { o with end_date := ns - 1 } else o) with hF
    set w : Override := { ov with end_date := ns - 1 } with hw
    have hFid : ∀ o : Override, (F o).id = o.id := by
      intro o
      by_cases h : o.id = ov.id <;> simp [hF, h]
    have hFgr : ∀ o : Override, (F o).group_id = o.group_id := by
      intro o
      by_cases h : o.id = ov.id <;> simp [hF, h]
    have hFmem : ∀ o ∈ st.overrides, (o.id ≠ ov.id ∧ F o = o) ∨ (o = ov ∧ F o = w) := by
      intro o homem
      by_cases h : o.id = ov.id
      · have heo := hid_eq o homem h
        subst heo
        exact Or.inr ⟨rfl, by simp [hF, hw]⟩
      · exact Or.inl ⟨h, by simp [hF, h]⟩
    have hshrink : ∀ o ∈ st.overrides,
        o.start_date ≤ (F o).start_date ∧ (F o).end_date ≤ o.end_date := by
      intro o homem
      rcases hFmem o homem with ⟨_, heq⟩ | ⟨heo, heq⟩
      · rw [heq]
        exact ⟨le_refl _, le_refl _⟩
      · rw [heq, heo, hw]
        exact ⟨le_refl _, by simp; omega⟩
    have hids : ((st.overrides.map F).map (fun o => o.id)) = st.overrides.map (fun o => o.id) := by
      rw [List.map_map]
      exact List.map_congr_left (fun o _ => hFid o)
    refine ⟨?_, ?_, ?_, ?_, ?_, ?_⟩
    · rw [ho, hids]
      exact hnodup
    · intro o hmem
      rw [hn]
      rw [ho] at hmem
      obtain ⟨x, hx, rfl⟩ := List.mem_map.mp hmem
      rw [hFid x]
      exact hbound x hx
    · rw [hn]
    · intro o hor
      rw [ho]
      have heq : F o = o := by simp [hF, hrest_id o hor]
      exact heq ▸ List.mem_map_of_mem F (hrest_mem o hor)
    · intro g
      show ((reconcile_override gid ns ne now st ov).overrides.filter
        (fun o => o.group_id == g)).Pairwise RDisj
      rw [ho]
      exact pairwise_filter_map_patch st.overrides F g hFgr hshrink (hdisj g)
    · intro o hmem hg
      rw [ho] at hmem
      obtain ⟨x, hx, rfl⟩ := List.mem_map.mp hmem
      rcases hFmem x hx with ⟨hne', heq⟩ | ⟨rfl, heq⟩
      · rw [heq] at hg ⊢
        rcases hflag x hx hg with hh | hh | hh
        · exact Or.inl hh
        · exact absurd (hh ▸ rfl) hne'
        · exact Or.inr hh
      · rw [heq]
        refine Or.inl (NotIntN_of_end_lt ns ne w ?_)
        rw [hw]
        simp
  · -- head overlap: shrink start in place
    set F : Override → Override :=
      (fun o => if o.id == ov.id then { o with start_date := ne + 1 } else o) with hF
    set w : Override := { ov with start_date := ne + 1 } with hw
    have hFid : ∀ o : Override, (F o).id = o.id := by
      intro o
      by_cases h : o.id = ov.id <;> simp [hF, h]
    have hFgr : ∀ o : Override, (F o).group_id = o.group_id := by
      intro o
      by_cases h : o.id = ov.id <;> simp [hF, h]
    have hFmem : ∀ o ∈ st.overrides, (o.id ≠ ov.id ∧ F o = o) ∨ (o = ov ∧ F o = w) := by
      intro o homem
      by_cases h : o.id = ov.id
      · have heo := hid_eq o homem h
        subst heo
        exact Or.inr ⟨rfl, by simp [hF, hw]⟩
      · exact Or.inl ⟨h, by simp [hF, h]⟩
    have hshrink : ∀ o ∈ st.overrides,
        o.start_date ≤ (F o).start_date ∧ (F o).end_date ≤ o.end_date := by
      intro o homem
      rcases hFmem o homem with ⟨_, heq⟩ | ⟨heo, heq⟩
      · rw [heq]
        exact ⟨le_refl _, le_refl _⟩
      · rw [heq, heo, hw]
        exact ⟨by simp; omega, le_refl _⟩
    have hids : ((st.overrides.map F).map (fun o => o.id)) = st.overrides.map (fun o => o.id) := by
      rw [List.map_map]
      exact List.map_congr_left (fun o _ => hFid o)
    refine ⟨?_, ?_, ?_, ?_, ?_, ?_⟩
    · rw [ho, hids]
      exact hnodup
    · intro o hmem
      rw [hn]
      rw [ho] at hmem
      obtain ⟨x, hx, rfl⟩ := List.mem_map.mp hmem
      rw [hFid x]
      exact hbound x hx
    · rw [hn]
    · intro o hor
      rw [ho]
      have heq : F o = o := by simp [hF, hrest_id o hor]
      exact heq ▸ List.mem_map_of_mem F (hrest_mem o hor)
    · intro g
      show ((reconcile_override gid ns ne now st ov).overrides.filter
        (fun o => o.group_id == g)).Pairwise RDisj
      rw [ho]
      exact pairwise_filter_map_patch st.overrides F g hFgr hshrink (hdisj g)
    · intro o hmem hg
      rw [ho] at hmem
      obtain ⟨x, hx, rfl⟩ := List.mem_map.mp hmem
      rcases hFmem x hx with ⟨hne', heq⟩ | ⟨rfl, heq⟩
      · rw [heq] at hg ⊢
        rcases hflag x hx hg with hh | hh | hh
        · exact Or.inl hh
        · exact absurd (hh ▸ rfl) hne'
        · exact Or.inr hh
      · rw [heq]
        refine Or.inl (NotIntN_of_start_gt ns ne w ?_)
        rw [hw]
        simp

theorem fold_reconcile_inv (gid : Nat) (ns ne : Int) (now : Now) (hval : ns ≤ ne)
    (pend : List Override) :
    ∀ (st : DBState),
      (st.overrides.map (fun o => o.id)).Nodup →
      (∀ o ∈ st.overrides, o.id < st.next_override_id) →
      (∀ o ∈ pend, o ∈ st.overrides ∧ o.group_id = gid ∧ ns ≤ o.end_date ∧ o.start_date ≤ ne) →
      ((pend.map (fun o => o.id)).Nodup) →
      (∀ g, (overrides_for st g).Pairwise RDisj) →
      (∀ o ∈ st.overrides, o.group_id = gid → NotIntN ns ne o ∨ o ∈ pend) →
      (((pend.foldl (reconcile_override gid ns ne now) st).overrides.map (fun o => o.id)).Nodup)
      ∧ (∀ o ∈ (pend.foldl (reconcile_override gid ns ne now) st).overrides,
          o.id < (pend.foldl (reconcile_override gid ns ne now) st).next_override_id)
      ∧ st.next_override_id ≤ (pend.foldl (reconcile_override gid ns ne now) st).next_override_id
      ∧ (∀ g, (overrides_for (pend.foldl (reconcile_override gid ns ne now) st) g).Pairwise RDisj)
      ∧ (∀ o ∈ (pend.foldl (reconcile_override gid ns ne now) st).overrides,
          o.group_id = gid → NotIntN ns ne o) := by
  induction pend with
  | nil =>
    intro st h1 h2 h3 h4 h5 h6
    refine ⟨h1, h2, le_refl _, h5, ?_⟩
    intro o ho hg
    rcases h6 o ho hg with h | h
    · exact h
    · simp at h
  | cons ov rest ih =>
    intro st h1 h2 h3 h4 h5 h6
    rw [List.foldl_cons]
    obtain ⟨hov_mem, hov_g, hq1, hq2⟩ := h3 ov (List.mem_cons_self _ _)
    have h4' : (ov.id ∉ rest.map (fun o => o.id)) ∧ (rest.map (fun o => o.id)).Nodup := by
      rw [List.map_cons] at h4
      exact List.nodup_cons.mp h4
    have hrest_id : ∀ o ∈ rest, o.id ≠ ov.id := by
      intro o hor heq
      exact h4'.1 (heq ▸ List.mem_map_of_mem _ hor)
    obtain ⟨hstep1, hstep2, hstep3, hstep4, hstep5, hstep6⟩ :=
      reconcile_step_inv gid ns ne now st ov rest hval h1 h2 hov_mem hov_g hq1 hq2
        (fun o hor => (h3 o (List.mem_cons_of_mem _ hor)).1)
        hrest_id h5
        (fun o ho hg => by
          rcases h6 o ho hg with h | h
          · exact Or.inl h
          · rcases List.mem_cons.mp h with h | h
            · exact Or.inr (Or.inl h)
            · exact Or.inr (Or.inr h))
    obtain ⟨k1, k2, k3, k4, k5⟩ := ih (reconcile_override gid ns ne now st ov) hstep1 hstep2
      (fun o hor => ⟨hstep4 o hor, (h3 o (List.mem_cons_of_mem _ hor)).2⟩)
      h4'.2 hstep5 hstep6
    exact ⟨k1, k2, le_trans hstep3 k3, k4, k5⟩

theorem mem_overlap_query (s : DBState) (gid : Nat) (ns ne : Int) (o : Override) :
    o ∈ overlap_query s gid ns ne ↔
      o ∈ s.overrides ∧ o.group_id = gid ∧ ns ≤ o.end_date ∧ o.start_date ≤ ne := by
  unfold overlap_query
  rw [(sort_by_start_perm _).mem_iff, List.mem_filter]
  constructor
  · rintro ⟨hm, hc⟩
    simp only [Bool.and_eq_true, beq_iff_eq, Bool.not_eq_true', decide_eq_false_iff_not,
      not_lt] at hc
    exact ⟨hm, hc.1.1, hc.1.2, hc.2⟩
  · rintro ⟨hm, h1, h2, h3⟩
    refine ⟨hm, ?_⟩
    simp only [Bool.and_eq_true, beq_iff_eq, Bool.not_eq_true', decide_eq_false_iff_not,
      not_lt]
    exact ⟨⟨h1, h2⟩, h3⟩

theorem overlap_query_ids_nodup (s : DBState) (gid : Nat) (ns ne : Int)
    (hnodup : (s.overrides.map (fun o => o.id)).Nodup) :
    ((overlap_query s gid ns ne).map (fun o => o.id)).Nodup := by
  unfold overlap_query
  rw [((sort_by_start_perm _).map (fun o => o.id)).nodup_iff]
  exact ((List.filter_sublist _).map _).nodup hnodup

theorem save_override_preserves_inv (gid : Nat) (p : Payload) (now : Now) (s s' : DBState)
    (hval : p.start_date ≤ p.end_date)
    (hok : save_temporary_override_and_regenerate_edit gid p now s = .ok s')
    (hnodup : (s.overrides.map (fun o => o.id)).Nodup)
    (hbound : ∀ o ∈ s.overrides, o.id < s.next_override_id)
    (hdisj : ∀ g, (overrides_for s g).Pairwise RDisj) :
    ((s'.overrides.map (fun o => o.id)).Nodup)
    ∧ (∀ o ∈ s'.overrides, o.id < s'.next_override_id)
    ∧ (∀ g, (overrides_for s' g).Pairwise RDisj) := by
  unfold save_temporary_override_and_regenerate_edit at hok
  by_cases hrun : has_running_session s gid now
  · simp [hrun] at hok
  · simp only [hrun, Bool.false_eq_true, if_false, Except.ok.injEq] at hok
    subst hok
    set ns := p.start_date
    set ne := p.end_date
    set pend := overlap_query s gid ns ne with hpend
    set s1 := pend.foldl (reconcile_override gid ns ne now) s with hs1
    obtain ⟨k1, k2, k3, k4, k5⟩ :=
      fold_reconcile_inv gid ns ne now hval pend s hnodup hbound
        (fun o ho => (mem_overlap_query s gid ns ne o).mp ho)
        (overlap_query_ids_nodup s gid ns ne hnodup)
        hdisj
        (fun o ho hg => by
          by_cases hni : NotIntN ns ne o
          · exact Or.inl hni
          · refine Or.inr ((mem_overlap_query s gid ns ne o).mpr ⟨ho, hg, ?_, ?_⟩)
            · unfold NotIntN at hni
              push_neg at hni
              obtain ⟨d, hd⟩ := hni
              omega
            · unfold NotIntN at hni
              push_neg at hni
              obtain ⟨d, hd⟩ := hni
              omega)
    refine ⟨?_, ?_, ?_⟩
    · show (((s1.overrides ++ [(⟨s1.next_override_id, gid, ns, ne⟩ : Override)]).map
        (fun o => o.id)).Nodup)
      rw [List.map_append]
      refine k1.append (List.nodup_singleton _) ?_
      intro a ha hb
      obtain ⟨x, hx, rfl⟩ := List.mem_map.mp ha
      simp at hb
      have hk := k2 x hx
      rw [← hs1] at hk
      omega
    · intro o hmem
      show o.id < s1.next_override_id + 1
      rcases List.mem_append.mp hmem with h | h
      · have hk := k2 o h
        rw [← hs1] at hk
        omega
      · simp only [List.mem_singleton] at h
        have hid : o.id = s1.next_override_id := by
          subst h
          rfl
        omega
    · intro g
      show (((s1.overrides ++ [(⟨s1.next_override_id, gid, ns, ne⟩ : Override)]).filter
        (fun o => o.group_id == g)).Pairwise RDisj)
      rw [List.filter_append, List.pairwise_append]
      refine ⟨k4 g, ?_, ?_⟩
      · by_cases hgr : ((⟨s1.next_override_id, gid, ns, ne⟩ : Override).group_id == g) <;>
          simp [List.filter, hgr, List.pairwise_singleton]
      · intro a ha b hb
        have hbr : b = (⟨s1.next_override_id, gid, ns, ne⟩ : Override) ∧ g = gid := by
          by_cases hgr : ((⟨s1.next_override_id, gid, ns, ne⟩ : Override).group_id == g)
          · constructor
            · simpa [List.filter, hgr] using hb
            · have h2 := eq_of_beq hgr
              simp at h2
              omega
          · simp [List.filter, hgr] at hb
        obtain ⟨rfl, hg2⟩ := hbr
        have ha' := List.mem_filter.mp ha
        have hag : a.group_id = gid := by
          have h2 := eq_of_beq ha'.2
          omega
        have hnint := k5 a ha'.1 hag
        intro d hd
        simp only at hd
        exact hnint d ⟨hd.1, hd.2.1, hd.2.2⟩

theorem mem_session_dates (sd ed d : Int) (h : d ∈ session_dates sd ed) :
    sd ≤ d ∧ d ≤ ed := by
  unfold session_dates at h
  obtain ⟨i, hi, rfl⟩ := List.mem_map.mp h
  have hb : i < (ed + 1 - sd).toNat := List.mem_range.mp hi
  omega

theorem override_rows_bounds (sd ed : Int) (days : DaysMap) (ex : List Int) (now : Now)
    (r : SessRow) (hr : r ∈ override_session_rows sd ed days ex now) :
    sd ≤ r.1 ∧ r.1 ≤ ed
    ∧ starts_after (cutoff30 now).day (cutoff30 now).minute r.1 r.2.1 = true := by
  unfold override_session_rows at hr
  by_cases hsel : (selected_weekdays days).isEmpty
  · simp [hsel] at hr
  · simp only [hsel, if_false, Bool.false_eq_true] at hr
    obtain ⟨d, hd, hf⟩ := List.mem_filterMap.mp hr
    have hdb := mem_session_dates sd ed d hd
    split at hf
    · split at hf
      · split at hf
        · rename_i hfut
          cases hf
          exact ⟨hdb.1, hdb.2, hfut⟩
        · cases hf
      · cases hf
    · cases hf

theorem mem_mk_sessions (nid gid : Nat) (temp : Bool) (ovr : Option Nat)
    (rows : List SessRow) (t : Session) (ht : t ∈ mk_sessions nid gid temp ovr rows) :
    t.group_id = gid ∧ t.is_temporary = temp ∧ t.override_id = ovr
    ∧ (t.date, t.start_time, t.end_time) ∈ rows := by
  induction rows generalizing nid with
  | nil => cases ht
  | cons r rest ih =>
    obtain ⟨d, st, et⟩ := r
    rcases List.mem_cons.mp ht with h | h
    · subst h
      exact ⟨rfl, rfl, rfl, List.mem_cons_self _ _⟩
    · obtain ⟨h1, h2, h3, h4⟩ := ih (nid + 1) h
      exact ⟨h1, h2, h3, List.mem_cons_of_mem _ h4⟩

theorem filter_pred_of_filter_not {α : Type} (p : α → Bool) (l : List α) :
    (l.filter (fun t => !(p t))).filter p = [] := by
  induction l with
  | nil => rfl
  | cons a rest ih =>
    by_cases h : p a = true
    · simp [List.filter_cons, h, ih]
    · simp [List.filter_cons, h, ih]

theorem filter_of_filter_not_disjoint {α : Type} (p q : α → Bool) (l : List α)
    (h : ∀ t, p t = true → q t = false) :
    (l.filter (fun t => !(q t))).filter p = l.filter p := by
  induction l with
  | nil => rfl
  | cons a rest ih =>
    by_cases hp : p a = true
    · have hq : q a = false := h a hp
      simp [List.filter_cons, hp, hq, ih]
    · by_cases hq : q a = true
      · simp [List.filter_cons, hp, hq, ih]
      · simp [List.filter_cons, hp, hq, ih]

theorem filter_all_true {α : Type} (p : α → Bool) (l : List α)
    (h : ∀ t ∈ l, p t = true) : l.filter p = l :=
  List.filter_eq_self.mpr h

theorem regen_sessions_eq (s : DBState) (gid oid : Nat) (sd ed : Int) (days : DaysMap)
    (ex : List Int) (now : Now) :
    (regenerate_override_future s gid oid sd ed days ex now).sessions
      = s.sessions.filter (fun t => !(in_range_future gid sd ed now t))
        ++ mk_sessions s.next_session_id gid true (some oid)
            (override_session_rows sd ed days ex now) := rfl

theorem filter_false_of_all {α : Type} (p : α → Bool) (l : List α)
    (h : ∀ t ∈ l, p t = false) : l.filter p = [] := by
  induction l with
  | nil => rfl
  | cons a rest ih =>
    rw [List.filter_cons, if_neg (by simp [h a (List.mem_cons_self _ _)])]
    exact ih (fun t htm => h t (List.mem_cons_of_mem _ htm))

theorem mk_block_filter_self (nid gid oid : Nat) (sd ed : Int) (days : DaysMap)
    (ex : List Int) (now : Now) :
    (mk_sessions nid gid true (some oid) (override_session_rows sd ed days ex now)).filter
      (in_range_future gid sd ed now)
    = mk_sessions nid gid true (some oid) (override_session_rows sd ed days ex now) := by
  apply filter_all_true
  intro t ht
  obtain ⟨h1, h2, h3, h4⟩ := mem_mk_sessions _ _ _ _ _ t ht
  obtain ⟨b1, b2, b3⟩ := override_rows_bounds sd ed days ex now _ h4
  unfold in_range_future
  simp only [Bool.and_eq_true, beq_iff_eq, decide_eq_true_eq]
  exact ⟨⟨⟨h1, b1⟩, b2⟩, b3⟩

theorem mk_block_filter_other (nid gid oid : Nat) (sd ed : Int) (days : DaysMap)
    (ex : List Int) (now : Now) (sd' ed' : Int)
    (hdisj : ∀ d : Int, ¬(sd ≤ d ∧ d ≤ ed ∧ sd' ≤ d ∧ d ≤ ed')) :
    (mk_sessions nid gid true (some oid) (override_session_rows sd ed days ex now)).filter
      (in_range_future gid sd' ed' now)
    = [] := by
  apply filter_false_of_all
  intro t ht
  obtain ⟨h1, h2, h3, h4⟩ := mem_mk_sessions _ _ _ _ _ t ht
  obtain ⟨b1, b2, b3⟩ := override_rows_bounds sd ed days ex now _ h4
  cases hpt : in_range_future gid sd' ed' now t
  · rfl
  · exfalso
    unfold in_range_future at hpt
    simp only [Bool.and_eq_true, beq_iff_eq, decide_eq_true_eq] at hpt
    exact hdisj t.date ⟨b1, b2, hpt.1.1.2, hpt.1.2⟩

theorem regen_step_other (gid : Nat) (now : Now) (st : DBState) (ov ovP : Override)
    (hd : RDisj ovP ov) :
    ((regenerate_override_future st gid ov.id ov.start_date ov.end_date
        (get_override_rules st ov.id).1 (get_override_rules st ov.id).2 now).sessions.filter
      (in_range_future gid ovP.start_date ovP.end_date now))
    = st.sessions.filter (in_range_future gid ovP.start_date ovP.end_date now) := by
  rw [regen_sessions_eq, List.filter_append]
  rw [mk_block_filter_other st.next_session_id gid ov.id ov.start_date ov.end_date
    (get_override_rules st ov.id).1 (get_override_rules st ov.id).2 now
    ovP.start_date ovP.end_date
    (fun d hd2 => hd d ⟨hd2.2.2.1, hd2.2.2.2, hd2.1, hd2.2.1⟩)]
  rw [List.append_nil]
  apply filter_of_filter_not_disjoint
  intro t hpt
  cases hqt : in_range_future gid ov.start_date ov.end_date now t
  · rfl
  · exfalso
    unfold in_range_future at hpt hqt
    simp only [Bool.and_eq_true, beq_iff_eq, decide_eq_true_eq] at hpt hqt
    exact hd t.date ⟨hpt.1.1.2, hpt.1.2, hqt.1.1.2, hqt.1.2⟩

theorem fold_regen_other (gid : Nat) (now : Now) (L : List Override) (ovP : Override)
    (hdall : ∀ ov ∈ L, RDisj ovP ov) :
    ∀ st : DBState,
    ((L.foldl (fun st ov => regenerate_override_future st gid ov.id ov.start_date ov.end_date
        (get_override_rules st ov.id).1 (get_override_rules st ov.id).2 now) st).sessions.filter
      (in_range_future gid ovP.start_date ovP.end_date now))
    = st.sessions.filter (in_range_future gid ovP.start_date ovP.end_date now) := by
  induction L with
  | nil => intro st; rfl
  | cons ov rest ih =>
    intro st
    rw [List.foldl_cons]
    rw [ih (fun o ho => hdall o (List.mem_cons_of_mem _ ho))]
    exact regen_step_other gid now st ov ovP (hdall ov (List.mem_cons_self _ _))

theorem fold_regen_spec (gid : Nat) (now : Now) (L : List Override) :
    ∀ (st : DBState),
      L.Pairwise RDisj →
      ∀ ov ∈ L,
        (((L.foldl (fun st ov => regenerate_override_future st gid ov.id ov.start_date
            ov.end_date (get_override_rules st ov.id).1 (get_override_rules st ov.id).2 now)
            st).sessions.filter (in_range_future gid ov.start_date ov.end_date now)).map
          sess_fields)
        = (override_session_rows ov.start_date ov.end_date
            (get_override_rules st ov.id).1 (get_override_rules st ov.id).2 now).map
            (fun r => (gid, r.1, r.2.1, r.2.2, true, some ov.id)) := by
  induction L with
  | nil =>
    intro st _ ov hov
    cases hov
  | cons ov0 rest ih =>
    intro st hpw ov hov
    rw [List.foldl_cons]
    rcases List.mem_cons.mp hov with rfl | hovr
    · rw [fold_regen_other gid now rest ov (List.pairwise_cons.mp hpw).1]
      show (((regenerate_override_future st gid ov.id ov.start_date ov.end_date
          (get_override_rules st ov.id).1 (get_override_rules st ov.id).2 now).sessions.filter
        (in_range_future gid ov.start_date ov.end_date now)).map sess_fields) = _
      rw [regen_sessions_eq, List.filter_append,
        filter_pred_of_filter_not (in_range_future gid ov.start_date ov.end_date now),
        mk_block_filter_self, List.nil_append, mk_sessions_map_fields]
    · have hres := ih (regenerate_override_future st gid ov0.id ov0.start_date ov0.end_date
        (get_override_rules st ov0.id).1 (get_override_rules st ov0.id).2 now)
        (List.pairwise_cons.mp hpw).2 ov hovr
      exact hres

theorem apply_overrides_spec (gid : Nat) (now : Now) (s : DBState)
    (hdisj : (overrides_for s gid).Pairwise RDisj) (ov : Override)
    (hov : ov ∈ s.overrides) (hg : ov.group_id = gid) :
    (((apply_overrides_future gid now s).sessions.filter
        (in_range_future gid ov.start_date ov.end_date now)).map sess_fields)
      = (override_session_rows ov.start_date ov.end_date
          (get_override_rules s ov.id).1 (get_override_rules s ov.id).2 now).map
          (fun r => (gid, r.1, r.2.1, r.2.2, true, some ov.id)) := by
  have hL : ov ∈ sort_by_start (s.overrides.filter (fun o => o.group_id == gid)) := by
    rw [(sort_by_start_perm _).mem_iff]
    exact List.mem_filter.mpr ⟨hov, by simp [hg]⟩
  have hpw : (sort_by_start (s.overrides.filter
      (fun o => o.group_id == gid))).Pairwise RDisj := by
    refine ((sort_by_start_perm _).pairwise_iff (fun hab => RDisj_symm hab)).mpr ?_
    exact (hdisj.sublist (List.Sublist.refl _))
  exact fold_regen_spec gid now _ s hpw ov hL

theorem edit_frame_overrides (gid : Nat) (payload : Option Payload) (now : Now)
    (s s' : DBState)
    (hok : save_group_schedule_and_regenerate_edit gid payload now s = .ok s') :
    s'.overrides = s.overrides ∧ s'.override_days = s.override_days
    ∧ s'.override_exclusions = s.override_exclusions := by
  unfold save_group_schedule_and_regenerate_edit at hok
  by_cases hrun : has_running_session s gid now
  · simp [hrun] at hok
  · simp only [hrun, Bool.false_eq_true, if_false] at hok
    cases payload with
    | none =>
      cases hok
      exact ⟨rfl, rfl, rfl⟩
    | some p =>
      cases hok
      exact ⟨rfl, rfl, rfl⟩

-- ============================================================================
-- Claims
-- ============================================================================

/-- Claim C3: for a valid Schedule Rule (`start_date ≤ end_date`), the preview
count `_count_sessions` equals the number of dates in the inclusive range whose
weekday is enabled and which are not excluded, and this equals the length of
the session list built by the full-regeneration loop of
`save_group_schedule_and_regenerate`. -/
theorem preview_eq_generation (sd ed : Int) (days : DaysMap) (ex : List Int)
    (h : sd ≤ ed) :
    count_sessions sd ed (selected_weekdays days) ex
      = (base_session_rows sd ed days ex).length
    ∧ count_sessions sd ed (selected_weekdays days) ex
      = ((session_dates sd ed).filter (fun d =>
          (selected_weekdays days).contains (weekday d) && !(ex.contains d))).length := by
  constructor
  · by_cases hsel : (selected_weekdays days).isEmpty
    · simp [count_sessions, base_session_rows, hsel, h, Int.not_lt.mpr h]
    · simp only [count_sessions, base_session_rows, hsel, if_neg (Int.not_lt.mpr h),
        if_false, Bool.false_eq_true]
      exact (filterMap_rows_length days ex (session_dates sd ed)).symm
  · by_cases hsel : (selected_weekdays days).isEmpty
    · have : selected_weekdays days = [] := List.isEmpty_iff.mp hsel
      simp [count_sessions, hsel, h, Int.not_lt.mpr h, this]
    · simp only [count_sessions, hsel, if_neg (Int.not_lt.mpr h), if_false, Bool.false_eq_true]
      exact (List.countP_eq_length_filter _ _)

/-- Witness for C3 at the spec's example rule (2024-09-01..2024-09-30, Mon+Wed,
excluding 2024-09-04): the count is 8 and matches generation. -/
theorem preview_eq_generation_witness :
    ordinal 2024 9 1 ≤ ordinal 2024 9 30
    ∧ count_sessions (ordinal 2024 9 1) (ordinal 2024 9 30)
        (selected_weekdays exampleDays) [ordinal 2024 9 4]
      = (base_session_rows (ordinal 2024 9 1) (ordinal 2024 9 30)
          exampleDays [ordinal 2024 9 4]).length
    ∧ count_sessions (ordinal 2024 9 1) (ordinal 2024 9 30)
        (selected_weekdays exampleDays) [ordinal 2024 9 4] = 8 :=
  ⟨by decide,
   (preview_eq_generation (ordinal 2024 9 1) (ordinal 2024 9 30) exampleDays
      [ordinal 2024 9 4] (by decide)).1,
   by decide⟩

/-- Claim C1 (refuted by this evaluation): the edit-safe regeneration is
claimed to insert only rows starting strictly after `now + 30min`, but at
`now = 2024-09-10 10:00` a rule with a Tuesday 10:10-11:40 slot gets its
10:10 session inserted: the row is new, starts after `now`, but not after the
`10:30` cutoff — the insertion loop of
`save_group_schedule_and_regenerate_edit` (lines 1512-1522) filters with
plain `now`, not with the `now + 30min` cutoff its deletion step uses. -/
theorem edit_inserts_inside_buffer :
    save_group_schedule_and_regenerate_edit 1 (some c1_pay) c1_now c1_state = .ok c1_final
    ∧ c1_sess ∈ c1_final.sessions
    ∧ c1_sess ∉ c1_state.sessions
    ∧ starts_after (cutoff30 c1_now).day (cutoff30 c1_now).minute
        c1_sess.date c1_sess.start_time = false
    ∧ starts_after c1_now.day c1_now.minute c1_sess.date c1_sess.start_time = true := by
  refine ⟨rfl, by decide, by decide, by decide, by decide⟩

/-- Claim C2 (amended): when a session of group `gid` is running at `now`, the
edit-safe regeneration and the override creation both raise the
schedule-locked error (and, every engine write being one transaction rolled
back on error, leave every row unchanged); the full regenerate
`save_group_schedule_and_regenerate` performs no such check (see the
counterexample). -/
theorem locked_blocks_edit_and_override (gid : Nat) (payload : Option Payload) (p2 : Payload)
    (now : Now) (s : DBState)
    (hrun : has_running_session s gid now = true) :
    save_group_schedule_and_regenerate_edit gid payload now s = .error .scheduleLocked
    ∧ save_temporary_override_and_regenerate_edit gid p2 now s = .error .scheduleLocked := by
  constructor
  · simp [save_group_schedule_and_regenerate_edit, hrun]
  · simp [save_temporary_override_and_regenerate_edit, hrun]

/-- Witness for the amended C2: a group with a session running at `now`
(date 100, 09:50-11:00, now 10:00) has both edit-safe calls refused. -/
theorem locked_blocks_edit_and_override_witness :
    save_group_schedule_and_regenerate_edit 1 none c2_now c2_state = .error .scheduleLocked
    ∧ save_temporary_override_and_regenerate_edit 1 c2_pay c2_now c2_state
        = .error .scheduleLocked :=
  locked_blocks_edit_and_override 1 none c2_pay c2_now c2_state (by decide)

/-- Counterexample to C2 as stated: with a session of group 1 running at
`now`, the full regenerate `save_group_schedule_and_regenerate` does not
raise — it wipes the group's sessions regardless (it never calls
`_has_running_session`). -/
theorem full_regen_ignores_lock :
    has_running_session c2_state 1 c2_now = true
    ∧ (save_group_schedule_and_regenerate 1 none c2_state).sessions = []
    ∧ c2_state.sessions ≠ [] := by
  refine ⟨by decide, by decide, by decide⟩

theorem override_ranges_stay_disjoint (ops : List OvCall) (s s' : DBState)
    (hval : ∀ c ∈ ops, c.payload.start_date ≤ c.payload.end_date)
    (hnodup : (s.overrides.map (fun o => o.id)).Nodup)
    (hbound : ∀ o ∈ s.overrides, o.id < s.next_override_id)
    (hdisj : ∀ g, (overrides_for s g).Pairwise RDisj)
    (hrun : run_override_calls ops s = some s') :
    ∀ g, (overrides_for s' g).Pairwise RDisj := by
  induction ops generalizing s with
  | nil =>
    unfold run_override_calls at hrun
    cases hrun
    exact hdisj
  | cons c rest ih =>
    unfold run_override_calls at hrun
    cases hcall : save_temporary_override_and_regenerate_edit c.gid c.payload c.now s with
    | error e =>
      rw [hcall] at hrun
      cases hrun
    | ok s1 =>
      rw [hcall] at hrun
      obtain ⟨k1, k2, k3⟩ := save_override_preserves_inv c.gid c.payload c.now s s1
        (hval c (List.mem_cons_self _ _)) hcall hnodup hbound hdisj
      exact ih s1 (fun c' hc' => hval c' (List.mem_cons_of_mem _ hc')) k1 k2 k3 hrun

theorem override_ranges_stay_disjoint_witness :
    run_override_calls c4_ops c4_init = some c4_final
    ∧ (overrides_for c4_final 1).Pairwise RDisj :=
  ⟨rfl,
   override_ranges_stay_disjoint c4_ops c4_init c4_final (by decide) (by decide)
     (by decide) (fun g => List.Pairwise.nil) rfl 1⟩

/-- Claim C6: the edit-safe regeneration never deletes a session whose start
instant is at or before `now + 30min`: any such pre-existing row (same id,
group, date, times, temporary flag and override reference) is still stored
after a successful call, whatever payload (including `none`) was given. -/
theorem edit_keeps_near_term (gid : Nat) (payload : Option Payload) (now : Now)
    (s s' : DBState)
    (hok : save_group_schedule_and_regenerate_edit gid payload now s = .ok s')
    (t : Session) (ht : t ∈ s.sessions)
    (hpast : starts_after (cutoff30 now).day (cutoff30 now).minute t.date t.start_time = false) :
    t ∈ s'.sessions := by
  unfold save_group_schedule_and_regenerate_edit at hok
  by_cases hrun : has_running_session s gid now
  · simp [hrun] at hok
  · have hkeep := mem_delete_future_sessions s.sessions gid now t ht hpast
    cases payload with
    | none =>
      simp only [hrun, Bool.false_eq_true, if_false] at hok
      cases hok
      simpa using hkeep
    | some p =>
      simp only [hrun, Bool.false_eq_true, if_false] at hok
      cases hok
      exact List.mem_append_left _ hkeep

/-- Witness for C6: an old session (day 100) survives an edit-safe
regeneration run much later (day 200) with a materially different rule. -/
theorem edit_keeps_near_term_witness :
    save_group_schedule_and_regenerate_edit 1 (some c6_pay) c6_now c6_state = .ok c6_final
    ∧ (⟨1, 1, 100, 600, 660, false, none⟩ : Session) ∈ c6_final.sessions :=
  ⟨rfl,
   edit_keeps_near_term 1 (some c6_pay) c6_now c6_state c6_final rfl
     ⟨1, 1, 100, 600, 660, false, none⟩ (by decide) (by decide)⟩

/-- Claim C9: the full regenerate `save_group_schedule_and_regenerate` leaves
the three override tables untouched for every payload, and after the call the
group's stored sessions are exactly the freshly generated base rows (ordinary,
no override reference) — every prior session of the group, including
override-derived temporary ones, is gone; with payload `none` the group has no
sessions at all. -/
theorem full_regen_frame (gid : Nat) (payload : Option Payload) (s : DBState) :
    (save_group_schedule_and_regenerate gid payload s).overrides = s.overrides
    ∧ (save_group_schedule_and_regenerate gid payload s).override_days = s.override_days
    ∧ (save_group_schedule_and_regenerate gid payload s).override_exclusions
        = s.override_exclusions
    ∧ (match payload with
      | none =>
        ((save_group_schedule_and_regenerate gid payload s).sessions.filter
          (fun t => t.group_id == gid)) = []
      | some p =>
        ((save_group_schedule_and_regenerate gid payload s).sessions.filter
            (fun t => t.group_id == gid)).map sess_fields
          = (base_session_rows p.start_date p.end_date p.days p.exclusions).map
              (fun r => (gid, r.1, r.2.1, r.2.2, false, (none : Option Nat)))) := by
  cases payload with
  | none =>
    refine ⟨rfl, rfl, rfl, ?_⟩
    simp [save_group_schedule_and_regenerate, filter_group_of_filter_not_group]
  | some p =>
    refine ⟨rfl, rfl, rfl, ?_⟩
    simp only [save_group_schedule_and_regenerate, List.filter_append,
      filter_group_of_filter_not_group, mk_sessions_filter_self, List.nil_append,
      mk_sessions_map_fields]

/-- Claim C10: `delete_session` on an id matching no session row is a silent
no-op (it never raises), while `update_session` with valid times on an id
matching no row raises `Session not found`. -/
theorem delete_missing_noop_update_missing_raises (s : DBState) (sid : Nat) (d : Int)
    (st et : Nat)
    (hnone : ∀ t ∈ s.sessions, t.id ≠ sid)
    (hatt : ∀ a ∈ s.attendance, a.session_id ≠ sid)
    (hvalid : st < et) :
    delete_session sid s = s ∧ update_session sid d st et s = .error .notFound := by
  constructor
  · have h1 : s.sessions.filter (fun t => !(t.id == sid)) = s.sessions :=
      List.filter_eq_self.mpr (fun t ht => by simp [hnone t ht])
    have h2 : s.attendance.filter (fun a => !(a.session_id == sid)) = s.attendance :=
      List.filter_eq_self.mpr (fun a ha => by simp [hatt a ha])
    simp [delete_session, h1, h2]
  · have hany : s.sessions.any (fun t => t.id == sid) = false := by
      simp only [List.any_eq_false]
      intro t ht
      simp [hnone t ht]
    simp [update_session, Nat.not_le.mpr hvalid, hany]

/-- Witness for C10 at a store holding one session (id 1): id 5 is absent,
deletion is a no-op and update raises not-found. -/
theorem delete_missing_noop_update_missing_raises_witness :
    delete_session 5 c10_state = c10_state
    ∧ update_session 5 101 600 660 c10_state = .error .notFound :=
  delete_missing_noop_update_missing_raises c10_state 5 101 600 660
    (by decide) (by decide) (by decide)

/-- Claim C7: creating override N for a group whose only override O strictly
contains N (O.start < N.start ≤ N.end < O.end) updates O in place to end at
N.start - 1 day, creates a brand-new override row covering N.end + 1 day ..
O.end, and inserts N itself; O keeps its weekday rules, the new right
remainder carries O's original weekday rules, and each remainder keeps exactly
the subset of O's exclusions falling in its own sub-range.  The schema
invariants (autoincrement id bounds on the override, weekday and exclusion
tables) are standing hypotheses. -/
theorem override_split_on_strict_containment
    (gid : Nat) (p : Payload) (now : Now) (s : DBState) (O : Override)
    (hgrp : s.overrides.filter (fun o => o.group_id == gid) = [O])
    (hbound : ∀ o ∈ s.overrides, o.id < s.next_override_id)
    (hdbound : ∀ r ∈ s.override_days, r.override_id < s.next_override_id)
    (hebound : ∀ r ∈ s.override_exclusions, r.override_id < s.next_override_id)
    (hos : O.start_date < p.start_date) (hv : p.start_date ≤ p.end_date)
    (hoe : p.end_date < O.end_date)
    (hrunning : has_running_session s gid now = false) :
    ∃ s', save_temporary_override_and_regenerate_edit gid p now s = .ok s'
      ∧ overrides_for s' gid =
          [{ O with end_date := p.start_date - 1 },
           ⟨s.next_override_id, gid, p.end_date + 1, O.end_date⟩,
           ⟨s.next_override_id + 1, gid, p.start_date, p.end_date⟩]
      ∧ s'.override_days.filter (fun r => r.override_id == O.id)
          = s.override_days.filter (fun r => r.override_id == O.id)
      ∧ (s'.override_days.filter (fun r => r.override_id == s.next_override_id)).map
            (fun r => (r.wday, r.start_time, r.end_time))
          = (s.override_days.filter (fun r => r.override_id == O.id)).map
            (fun r => (r.wday, r.start_time, r.end_time))
      ∧ (s'.override_exclusions.filter (fun r => r.override_id == O.id)).map (fun r => r.date)
          = ((s.override_exclusions.filter (fun r => r.override_id == O.id)).map
              (fun r => r.date)).filter
              (fun d => O.start_date ≤ d && d ≤ p.start_date - 1)
      ∧ (s'.override_exclusions.filter
            (fun r => r.override_id == s.next_override_id)).map (fun r => r.date)
          = ((s.override_exclusions.filter (fun r => r.override_id == O.id)).map
              (fun r => r.date)).filter
              (fun d => p.end_date + 1 ≤ d && d ≤ O.end_date) := by
  have hOmem : O ∈ s.overrides := by
    have h0 : O ∈ s.overrides.filter (fun o => o.group_id == gid) := by
      rw [hgrp]
      exact List.mem_cons_self _ _
    exact List.mem_of_mem_filter h0
  have hOgrp : O.group_id = gid := by
    have h0 : O ∈ s.overrides.filter (fun o => o.group_id == gid) := by
      rw [hgrp]
      exact List.mem_cons_self _ _
    exact eq_of_beq (List.mem_filter.mp h0).2
  have hOid : O.id < s.next_override_id := hbound O hOmem
  have hpend : overlap_query s gid p.start_date p.end_date = [O] := by
    unfold overlap_query
    have key : (fun o : Override =>
          o.group_id == gid && !(o.end_date < p.start_date) && !(o.start_date > p.end_date))
        = (fun o : Override => (o.group_id == gid)
            && (!(o.end_date < p.start_date) && !(o.start_date > p.end_date))) := by
      funext o
      rw [Bool.and_assoc]
    rw [key, filter_and_overrides _ _ _, hgrp]
    have hc : (!(O.end_date < p.start_date) && !(O.start_date > p.end_date)) = true := by
      simp only [Bool.and_eq_true, Bool.not_eq_true', decide_eq_false_iff_not, not_lt]
      exact ⟨by omega, by omega⟩
    simp [List.filter_cons, hc, sort_by_start, insert_by_start]
  refine ⟨regenerate_override_future
      (create_override ((overlap_query s gid p.start_date p.end_date).foldl
          (reconcile_override gid p.start_date p.end_date now) s)
        gid p.start_date p.end_date p.days p.exclusions).1
      gid
      (create_override ((overlap_query s gid p.start_date p.end_date).foldl
          (reconcile_override gid p.start_date p.end_date now) s)
        gid p.start_date p.end_date p.days p.exclusions).2
      p.start_date p.end_date p.days p.exclusions now, ?_, ?_, ?_, ?_, ?_, ?_⟩
  · unfold save_temporary_override_and_regenerate_edit
    rw [if_neg (by simp [hrunning])]
  · show ((regenerate_override_future _ _ _ _ _ _ _ _).overrides.filter
        (fun o => o.group_id == gid)) = _
    rw [hpend]
    simp only [List.foldl_cons, List.foldl_nil]
    rw [reconcile_override_split_eq gid p.start_date p.end_date now s O hos hoe]
    simp only [regenerate_override_future, create_override, replace_override_exclusions,
      update_override_end, get_override_rules]
    rw [List.filter_append, List.filter_append, List.filter_map]
    have hcong : s.overrides.filter ((fun o => o.group_id == gid) ∘ (fun o =>
        if (o.id == O.id) = true then
          { id := o.id, group_id := o.group_id, start_date := o.start_date,
            end_date := p.start_date - 1 }
        else o)) = s.overrides.filter (fun o => o.group_id == gid) := by
      refine List.filter_congr ?_
      intro o ho
      by_cases h : o.id = O.id <;> simp [h]
    rw [hcong, hgrp]
    simp [hOgrp]
  · rw [hpend]
    simp only [List.foldl_cons, List.foldl_nil]
    rw [reconcile_override_split_eq gid p.start_date p.end_date now s O hos hoe]
    simp only [regenerate_override_future, create_override, replace_override_exclusions,
      update_override_end, get_override_rules]
    set SDO := s.override_days.filter (fun r => r.override_id == O.id) with hSDO
    set rightD := ((SDO.map (fun r =>
        (r.wday, (⟨true, r.start_time, r.end_time⟩ : DayRule)))).filter
        (fun q => q.2.enabled)).map
        (fun q => (⟨s.next_override_id, q.1, q.2.start_time, q.2.end_time⟩ : OverrideDay))
      with hrightD
    set pD := (p.days.filter (fun q => q.2.enabled)).map
        (fun q => (⟨s.next_override_id + 1, q.1, q.2.start_time, q.2.end_time⟩ : OverrideDay))
      with hpD
    rw [List.filter_append, List.filter_append]
    rw [filter_days_eq_nil rightD O.id (by
      intro r hr hc
      rw [hrightD] at hr
      obtain ⟨x, hx, rfl⟩ := List.mem_map.mp hr
      simp at hc
      omega)]
    rw [filter_days_eq_nil pD O.id (by
      intro r hr hc
      rw [hpD] at hr
      obtain ⟨x, hx, rfl⟩ := List.mem_map.mp hr
      simp at hc
      omega)]
    simp
  · rw [hpend]
    simp only [List.foldl_cons, List.foldl_nil]
    rw [reconcile_override_split_eq gid p.start_date p.end_date now s O hos hoe]
    simp only [regenerate_override_future, create_override, replace_override_exclusions,
      update_override_end, get_override_rules]
    set SDO := s.override_days.filter (fun r => r.override_id == O.id) with hSDO
    set rightD := ((SDO.map (fun r =>
        (r.wday, (⟨true, r.start_time, r.end_time⟩ : DayRule)))).filter
        (fun q => q.2.enabled)).map
        (fun q => (⟨s.next_override_id, q.1, q.2.start_time, q.2.end_time⟩ : OverrideDay))
      with hrightD
    set pD := (p.days.filter (fun q => q.2.enabled)).map
        (fun q => (⟨s.next_override_id + 1, q.1, q.2.start_time, q.2.end_time⟩ : OverrideDay))
      with hpD
    rw [List.filter_append, List.filter_append]
    rw [filter_days_eq_nil s.override_days s.next_override_id (by
      intro r hr
      have := hdbound r hr
      omega)]
    rw [filter_days_eq_nil pD s.next_override_id (by
      intro r hr hc
      rw [hpD] at hr
      obtain ⟨x, hx, rfl⟩ := List.mem_map.mp hr
      simp at hc)]
    rw [filter_days_all rightD s.next_override_id (by
      intro r hr
      rw [hrightD] at hr
      obtain ⟨x, hx, rfl⟩ := List.mem_map.mp hr
      rfl)]
    rw [List.nil_append, List.append_nil]
    rw [hrightD, hSDO]
    exact days_roundtrip (s.override_days.filter (fun r => r.override_id == O.id))
      s.next_override_id
  · rw [hpend]
    simp only [List.foldl_cons, List.foldl_nil]
    rw [reconcile_override_split_eq gid p.start_date p.end_date now s O hos hoe]
    simp only [regenerate_override_future, create_override, replace_override_exclusions,
      update_override_end, get_override_rules]
    set E0 := s.override_exclusions.filter (fun r => !(r.override_id == O.id)) with hE0
    set SEO := (s.override_exclusions.filter (fun r => r.override_id == O.id)).map
        (fun r => r.date) with hSEO
    set leftR := (SEO.filter (fun d => O.start_date ≤ d && d ≤ p.start_date - 1)).map
        (fun d => (⟨O.id, d⟩ : OverrideExclusion)) with hleftR
    set rightR := (SEO.filter (fun d => p.end_date + 1 ≤ d && d ≤ O.end_date)).map
        (fun d => (⟨s.next_override_id, d⟩ : OverrideExclusion)) with hrightR
    set pR := p.exclusions.map (fun d => (⟨s.next_override_id + 1, d⟩ : OverrideExclusion))
      with hpR
    have hkeep1 : (E0 ++ leftR).filter (fun r => !(r.override_id == s.next_override_id))
        = E0 ++ leftR := by
      refine filter_ex_keep _ _ ?_
      intro r hr
      rcases List.mem_append.mp hr with h | h
      · rw [hE0] at h
        have := hebound r (List.mem_of_mem_filter h)
        omega
      · rw [hleftR] at h
        obtain ⟨x, hx, rfl⟩ := List.mem_map.mp h
        simp
        omega
    rw [hkeep1]
    have hkeep2 : ((E0 ++ leftR) ++ rightR).filter
        (fun r => !(r.override_id == s.next_override_id + 1)) = (E0 ++ leftR) ++ rightR := by
      refine filter_ex_keep _ _ ?_
      intro r hr
      rcases List.mem_append.mp hr with h | h
      · rcases List.mem_append.mp h with h2 | h2
        · rw [hE0] at h2
          have := hebound r (List.mem_of_mem_filter h2)
          omega
        · rw [hleftR] at h2
          obtain ⟨x, hx, rfl⟩ := List.mem_map.mp h2
          simp
          omega
      · rw [hrightR] at h
        obtain ⟨x, hx, rfl⟩ := List.mem_map.mp h
        simp
    rw [hkeep2]
    rw [List.filter_append, List.filter_append, List.filter_append]
    rw [show E0.filter (fun r => r.override_id == O.id) = [] from by
      rw [hE0]
      exact filter_ex_of_filter_not s.override_exclusions O.id]
    rw [filter_ex_eq_nil rightR O.id (by
      intro r hr hc
      rw [hrightR] at hr
      obtain ⟨x, hx, rfl⟩ := List.mem_map.mp hr
      simp at hc
      omega)]
    rw [filter_ex_eq_nil pR O.id (by
      intro r hr hc
      rw [hpR] at hr
      obtain ⟨x, hx, rfl⟩ := List.mem_map.mp hr
      simp at hc
      omega)]
    rw [filter_ex_all leftR O.id (by
      intro r hr
      rw [hleftR] at hr
      obtain ⟨x, hx, rfl⟩ := List.mem_map.mp hr
      rfl)]
    rw [hleftR]
    simp only [List.nil_append, List.append_nil, List.map_map]
    have h0 : ((fun r : OverrideExclusion => r.date) ∘ fun d : Int =>
        ({ override_id := O.id, date := d } : OverrideExclusion)) = id := by
      funext d
      rfl
    rw [h0, List.map_id]
  · rw [hpend]
    simp only [List.foldl_cons, List.foldl_nil]
    rw [reconcile_override_split_eq gid p.start_date p.end_date now s O hos hoe]
    simp only [regenerate_override_future, create_override, replace_override_exclusions,
      update_override_end, get_override_rules]
    set E0 := s.override_exclusions.filter (fun r => !(r.override_id == O.id)) with hE0
    set SEO := (s.override_exclusions.filter (fun r => r.override_id == O.id)).map
        (fun r => r.date) with hSEO
    set leftR := (SEO.filter (fun d => O.start_date ≤ d && d ≤ p.start_date - 1)).map
        (fun d => (⟨O.id, d⟩ : OverrideExclusion)) with hleftR
    set rightR := (SEO.filter (fun d => p.end_date + 1 ≤ d && d ≤ O.end_date)).map
        (fun d => (⟨s.next_override_id, d⟩ : OverrideExclusion)) with hrightR
    set pR := p.exclusions.map (fun d => (⟨s.next_override_id + 1, d⟩ : OverrideExclusion))
      with hpR
    have hkeep1 : (E0 ++ leftR).filter (fun r => !(r.override_id == s.next_override_id))
        = E0 ++ leftR := by
      refine filter_ex_keep _ _ ?_
      intro r hr
      rcases List.mem_append.mp hr with h | h
      · rw [hE0] at h
        have := hebound r (List.mem_of_mem_filter h)
        omega
      · rw [hleftR] at h
        obtain ⟨x, hx, rfl⟩ := List.mem_map.mp h
        simp
        omega
    rw [hkeep1]
    have hkeep2 : ((E0 ++ leftR) ++ rightR).filter
        (fun r => !(r.override_id == s.next_override_id + 1)) = (E0 ++ leftR) ++ rightR := by
      refine filter_ex_keep _ _ ?_
      intro r hr
      rcases List.mem_append.mp hr with h | h
      · rcases List.mem_append.mp h with h2 | h2
        · rw [hE0] at h2
          have := hebound r (List.mem_of_mem_filter h2)
          omega
        · rw [hleftR] at h2
          obtain ⟨x, hx, rfl⟩ := List.mem_map.mp h2
          simp
          omega
      · rw [hrightR] at h
        obtain ⟨x, hx, rfl⟩ := List.mem_map.mp h
        simp
    rw [hkeep2]
    rw [List.filter_append, List.filter_append, List.filter_append]
    rw [filter_ex_eq_nil E0 s.next_override_id (by
      intro r hr
      rw [hE0] at hr
      have := hebound r (List.mem_of_mem_filter hr)
      omega)]
    rw [filter_ex_eq_nil leftR s.next_override_id (by
      intro r hr hc
      rw [hleftR] at hr
      obtain ⟨x, hx, rfl⟩ := List.mem_map.mp hr
      simp at hc
      omega)]
    rw [filter_ex_eq_nil pR s.next_override_id (by
      intro r hr hc
      rw [hpR] at hr
      obtain ⟨x, hx, rfl⟩ := List.mem_map.mp hr
      simp at hc)]
    rw [filter_ex_all rightR s.next_override_id (by
      intro r hr
      rw [hrightR] at hr
      obtain ⟨x, hx, rfl⟩ := List.mem_map.mp hr
      rfl)]
    rw [hrightR]
    simp only [List.nil_append, List.append_nil, List.map_map]
    have h0 : ((fun r : OverrideExclusion => r.date) ∘ fun d : Int =>
        ({ override_id := s.next_override_id, date := d } : OverrideExclusion)) = id := by
      funext d
      rfl
    rw [h0, List.map_id]

/-- Witness for C7 at the spec's example: N = 2024-09-10..2024-09-15 against
O = 2024-09-05..2024-09-20 leaves 2024-09-05..2024-09-09 in place plus a new
row 2024-09-16..2024-09-20, both with O's Tuesday rule, and O's exclusions
(2024-09-08 and 2024-09-17) distributed to their own sides. -/
theorem override_split_on_strict_containment_witness :
    ∃ s', save_temporary_override_and_regenerate_edit 1 c7_pay c7_now c7_state = .ok s'
      ∧ overrides_for s' 1 =
          [{ c7_O with end_date := c7_pay.start_date - 1 },
           ⟨c7_state.next_override_id, 1, c7_pay.end_date + 1, c7_O.end_date⟩,
           ⟨c7_state.next_override_id + 1, 1, c7_pay.start_date, c7_pay.end_date⟩]
      ∧ s'.override_days.filter (fun r => r.override_id == c7_O.id)
          = c7_state.override_days.filter (fun r => r.override_id == c7_O.id)
      ∧ (s'.override_days.filter
            (fun r => r.override_id == c7_state.next_override_id)).map
            (fun r => (r.wday, r.start_time, r.end_time))
          = (c7_state.override_days.filter (fun r => r.override_id == c7_O.id)).map
            (fun r => (r.wday, r.start_time, r.end_time))
      ∧ (s'.override_exclusions.filter (fun r => r.override_id == c7_O.id)).map
            (fun r => r.date)
          = ((c7_state.override_exclusions.filter
                (fun r => r.override_id == c7_O.id)).map (fun r => r.date)).filter
              (fun d => c7_O.start_date ≤ d && d ≤ c7_pay.start_date - 1)
      ∧ (s'.override_exclusions.filter
            (fun r => r.override_id == c7_state.next_override_id)).map (fun r => r.date)
          = ((c7_state.override_exclusions.filter
                (fun r => r.override_id == c7_O.id)).map (fun r => r.date)).filter
              (fun d => c7_pay.end_date + 1 ≤ d && d ≤ c7_O.end_date) :=
  override_split_on_strict_containment 1 c7_pay c7_now c7_state c7_O (by decide) (by decide)
    (by decide) (by decide) (by decide) (by decide) (by decide) (by decide)

/-- Claim C8: the month-bucketed history excludes entirely every session of
the group with zero attendance rows (whatever its date), and every ended
session on/after the student's join date that has at least one attendance row
(for any student) appears in its (year, month) bucket with `present` true
exactly when that student's own attendance row exists. -/
theorem month_history_tri_state (s : DBState) (gid stu : Nat) (join : Int) (now : Now)
    (t : Session) (ht : t ∈ s.sessions) (htg : t.group_id = gid) :
    ((∀ a ∈ s.attendance, a.session_id ≠ t.id) →
      ∀ e ∈ student_month_history s gid stu join now, e.session_id ≠ t.id)
    ∧ (ended_on_or_after_join now join t = true →
       (∃ a ∈ s.attendance, a.session_id = t.id) →
       (⟨t.id, t.date,
          s.attendance.any (fun a => a.session_id == t.id && a.student_id == stu)⟩ : HistEntry)
         ∈ month_bucket s gid stu join now (year_month t.date)) := by
  constructor
  · intro hno e he
    unfold student_month_history at he
    obtain ⟨x, hx, rfl⟩ := List.mem_map.mp he
    have hx1 := List.mem_filter.mp hx
    have hx2 : x.id ∈ taken_session_ids s
        (((get_group_sessions gid s).filter (ended_on_or_after_join now join)).map
          (fun t => t.id)) :=
      List.mem_of_elem_eq_true hx1.2
    have hx3 := List.mem_filter.mp hx2
    have hx4 : s.attendance.any (fun a => a.session_id == x.id) = true := hx3.2
    obtain ⟨a, ha, hab⟩ := List.any_eq_true.mp hx4
    show x.id ≠ t.id
    intro hcontra
    have hax : a.session_id = x.id := by simpa using hab
    exact hno a ha (hax.trans hcontra)
  · intro hend ⟨a, ha, hasid⟩
    have htended : t ∈ (get_group_sessions gid s).filter (ended_on_or_after_join now join) := by
      refine List.mem_filter.mpr ⟨?_, hend⟩
      exact List.mem_filter.mpr ⟨ht, by simp [htg]⟩
    have hidmem : t.id ∈ ((get_group_sessions gid s).filter
        (ended_on_or_after_join now join)).map (fun t => t.id) :=
      List.mem_map_of_mem _ htended
    have hany : s.attendance.any (fun b => b.session_id == t.id) = true :=
      List.any_eq_true.mpr ⟨a, ha, by simp [hasid]⟩
    have htaken : t.id ∈ taken_session_ids s (((get_group_sessions gid s).filter
        (ended_on_or_after_join now join)).map (fun t => t.id)) :=
      List.mem_filter.mpr ⟨hidmem, hany⟩
    have hpresent : (present_session_ids s stu (taken_session_ids s
        (((get_group_sessions gid s).filter (ended_on_or_after_join now join)).map
          (fun t => t.id)))).contains t.id
        = s.attendance.any (fun b => b.session_id == t.id && b.student_id == stu) := by
      unfold present_session_ids
      rw [contains_filter_nat]
      have hc : (taken_session_ids s (((get_group_sessions gid s).filter
          (ended_on_or_after_join now join)).map (fun t => t.id))).contains t.id = true :=
        List.elem_eq_true_of_mem htaken
      rw [hc, Bool.true_and]
    refine List.mem_filter.mpr ⟨?_, by simp⟩
    unfold student_month_history
    have htf : t ∈ ((get_group_sessions gid s).filter
        (ended_on_or_after_join now join)).filter
        (fun u => (taken_session_ids s (((get_group_sessions gid s).filter
          (ended_on_or_after_join now join)).map (fun t => t.id))).contains u.id) := by
      refine List.mem_filter.mpr ⟨htended, ?_⟩
      exact List.elem_eq_true_of_mem htaken
    refine List.mem_map.mpr ⟨t, htf, ?_⟩
    have hrec : (⟨t.id, t.date, (present_session_ids s stu (taken_session_ids s
        (((get_group_sessions gid s).filter (ended_on_or_after_join now join)).map
          (fun t => t.id)))).contains t.id⟩ : HistEntry)
        = ⟨t.id, t.date,
            s.attendance.any (fun b => b.session_id == t.id && b.student_id == stu)⟩ := by
      rw [hpresent]
    exact hrec

/-- Witness for C8: with one ended session carrying another student's
attendance row and one ended session with no rows at all, student 7 gets a
present = false entry for the first session in the (2024, 9) bucket (the
second session never appears, which is checked by the theorem's first
conjunct at any state). -/
theorem month_history_tri_state_witness :
    (⟨1, ordinal 2024 9 2, false⟩ : HistEntry)
      ∈ month_bucket c8_state 1 7 (ordinal 2024 9 1) c8_now (2024, 9) :=
  (month_history_tri_state c8_state 1 7 (ordinal 2024 9 1) c8_now c8_t1
      (by decide) (by decide)).2
    (by decide) ⟨⟨1, 99⟩, by decide, by decide⟩

/-- C5 counterexample: after create-override, base-edit and reapply-overrides
(all at now = day 100, 10:00), date 96 lies inside the stored override range
95..105 but still carries the old 10:00-11:00 base session (non-temporary, no
override id), not the override's 11:40-12:40 rule: the three calls only touch
sessions starting strictly after now+30min, so past dates inside an override
range keep whatever they had. -/
theorem override_precedence_fails_in_past :
    save_temporary_override_and_regenerate_edit 1 c5_pOv c5_now c5_state = .ok c5_s1
    ∧ save_group_schedule_and_regenerate_edit 1 (some c5_pBase) c5_now c5_s1 = .ok c5_s2
    ∧ (c5_final.overrides = [⟨1, 1, 95, 105⟩]
      ∧ get_override_rules c5_final 1 = ([(4, ⟨true, 700, 760⟩)], [])
      ∧ (95 ≤ c5_old.date ∧ c5_old.date ≤ 105)
      ∧ c5_old ∈ c5_final.sessions
      ∧ c5_old.is_temporary = false ∧ c5_old.override_id = none
      ∧ ∀ t ∈ c5_final.sessions, t.date = 96 →
          t.start_time = 600 ∧ t.end_time = 660 ∧ t.is_temporary = false) :=
  ⟨rfl, rfl, by decide⟩

/-- C5 (amended): after a successful create_temporary_override followed by a
successful base save_group_schedule_and_regenerate_edit, re-running
apply_overrides_future leaves, for every stored override of the group, the
group's sessions in that override's range that start strictly after the final
call's now+30min cutoff exactly equal to the rows prescribed by the override's
own stored weekday rules and exclusions, tagged temporary with that override's
id — the base regeneration in between notwithstanding. Past and near-term
dates inside the range are out of scope (see the counterexample). -/
theorem override_precedence_after_sequence
    (gid : Nat) (pOv pBase : Payload) (now1 now2 now3 : Now) (s0 s1 s2 : DBState)
    (hval : pOv.start_date ≤ pOv.end_date)
    (hnodup : (s0.overrides.map (fun o => o.id)).Nodup)
    (hbound : ∀ o ∈ s0.overrides, o.id < s0.next_override_id)
    (hdisj : ∀ g, (overrides_for s0 g).Pairwise RDisj)
    (h1 : save_temporary_override_and_regenerate_edit gid pOv now1 s0 = .ok s1)
    (h2 : save_group_schedule_and_regenerate_edit gid (some pBase) now2 s1 = .ok s2)
    (ov : Override) (hov : ov ∈ s2.overrides) (hg : ov.group_id = gid) :
    (((apply_overrides_future gid now3 s2).sessions.filter
        (in_range_future gid ov.start_date ov.end_date now3)).map sess_fields)
      = (override_session_rows ov.start_date ov.end_date
          (get_override_rules s2 ov.id).1 (get_override_rules s2 ov.id).2 now3).map
          (fun r => (gid, r.1, r.2.1, r.2.2, true, some ov.id)) := by
  obtain ⟨k1, k2, k3⟩ := save_override_preserves_inv gid pOv now1 s0 s1 hval h1
    hnodup hbound hdisj
  have hovs := edit_frame_overrides gid (some pBase) now2 s1 s2 h2
  have hdisj2 : (overrides_for s2 gid).Pairwise RDisj := by
    unfold overrides_for
    rw [hovs.1]
    exact k3 gid
  exact apply_overrides_spec gid now3 s2 hdisj2 ov hov hg

/-- Closed witness for C5 at the counterexample fixture. -/
theorem override_precedence_after_sequence_witness :
    (((apply_overrides_future 1 c5_now c5_s2).sessions.filter
        (in_range_future 1 95 105 c5_now)).map sess_fields)
      = (override_session_rows 95 105
          (get_override_rules c5_s2 1).1 (get_override_rules c5_s2 1).2 c5_now).map
          (fun r => (1, r.1, r.2.1, r.2.2, true, some 1)) :=
  override_precedence_after_sequence 1 c5_pOv c5_pBase c5_now c5_now c5_now
    c5_state c5_s1 c5_s2 (by decide) (by decide) (by decide)
    (fun _ => List.Pairwise.nil) rfl rfl ⟨1, 1, 95, 105⟩ (by decide) rfl

end SchoolSchedule
